import Mathlib

/-!
Verification of the slack-translate-bot repository against its specification.

The development shallowly embeds the Python sources
(`slack_translate_bot/main.py`, `slack_translate_bot/slack_verify.py`,
`slack_translate_bot/config.py`) into Lean:

* pure helpers become Lean functions over `String` / `List Char`
  (Python `str` is modelled as Lean `String`, with explicit char-list
  helpers where Lean's own string functions would not reduce);
* the in-memory dedup ledger (an insertion-ordered dict) becomes a list of
  keys in insertion order;
* remote HTTP calls (Slack Web API, DeepL, json decoding, HMAC) become
  oracle functions supplied as parameters, and every outbound call is
  recorded in an effect trace;
* a raised-and-unhandled Python exception becomes an `Except.error` value.

Two module attributes that `main.py` reads are never defined by
`config.py`: `EXTRACT_PHRASES_LIST` (read by `_extract_content_to_translate`,
lines 177/180, not wrapped in any try/except on the handler paths) and
`SLACK_USER_TOKEN` (read by `_fetch_message` at line 289, inside its
catch-all try/except).  Both accesses therefore raise `AttributeError` at
run time; the embedding models them accordingly and the affected claims are
settled against that behaviour.
-/

set_option maxHeartbeats 1000000
set_option maxRecDepth 2048

namespace SlackTranslate

/-! ## Character-list string helpers

Python string methods used by the sources, modelled over `List Char`
so that everything reduces in the kernel.  `.strip()` is `trimList`,
`.lower()` is `lowerList` (ASCII, which covers every configured value),
substring containment is `containsSub`, `str.replace(a, b)` is
`replaceAll`, `str.replace(a, b, 1)` is `replaceFirst`. -/

/-- Left-then-right whitespace trim of a character list (Python `str.strip()`). -/
def trimList (l : List Char) : List Char :=
  ((l.dropWhile Char.isWhitespace).reverse.dropWhile Char.isWhitespace).reverse

/-- Python `str.strip()` on a `String`. -/
def pyTrim (s : String) : String := String.mk (trimList s.toList)

/-- ASCII lower-casing (Python `str.lower()` restricted to ASCII data). -/
def lowerList (l : List Char) : List Char := l.map Char.toLower

/-- Python `str.lower()` on a `String` (ASCII). -/
def pyLower (s : String) : String := String.mk (lowerList s.toList)

/-- Whether `pat` occurs as a contiguous substring (Python `pat in s`). -/
def containsSub (pat : List Char) : List Char → Bool
  | [] => pat.isEmpty
  | c :: rest => pat.isPrefixOf (c :: rest) || containsSub pat rest

/-- Substring test on strings (Python `pat in s`). -/
def strContains (s pat : String) : Bool := containsSub pat.toList s.toList

/-- Fuel-driven worker for `replaceAll`; the fuel is the length of the
scanned list, which suffices because every step consumes at least one
character. -/
def replaceAllF (pat rep : List Char) : Nat → List Char → List Char
  | 0, s => s
  | _ + 1, [] => []
  | fuel + 1, c :: rest =>
    if pat.isPrefixOf (c :: rest) && !pat.isEmpty then
      rep ++ replaceAllF pat rep fuel ((c :: rest).drop pat.length)
    else
      c :: replaceAllF pat rep fuel rest

/-- Python `str.replace(pat, rep)` (all occurrences, scanned left to right,
the replacement text is not rescanned), for nonempty `pat`. -/
def replaceAll (s pat rep : List Char) : List Char := replaceAllF pat rep s.length s

/-- Python `str.replace(pat, rep, 1)`: replace only the first occurrence. -/
def replaceFirst (pat rep : List Char) : List Char → List Char
  | [] => []
  | c :: rest =>
    if pat.isPrefixOf (c :: rest) && !pat.isEmpty then
      rep ++ (c :: rest).drop pat.length
    else
      c :: replaceFirst pat rep rest

/-- Python `str.split()` with no argument: split on whitespace runs and
drop empty pieces; returned as character lists. -/
def splitWs (l : List Char) : List (List Char) :=
  (l.splitOnP Char.isWhitespace).filter (fun w => !w.isEmpty)

/-- Python `" ".join(s.split())` used to collapse runs of whitespace. -/
def collapseSpaces (l : List Char) : List Char :=
  match splitWs l with
  | [] => []
  | w :: ws => w ++ ws.foldl (fun acc p => acc ++ ' ' :: p) []

/-! ## Dedup ledger (`main.py` lines 90-96 and 189-196)

The module state is an insertion-ordered dict `_processed` with `None`
values; the embedding keeps only the insertion-ordered key list.
`_already_processed` is check-and-mark: a hit returns `True`, a miss
appends the key and then pops oldest-first entries while the size exceeds
`_MAX_IDEMPOTENCY_SIZE`. -/

/-- Capacity bound `_MAX_IDEMPOTENCY_SIZE` from `main.py`. -/
def MAX_IDEMPOTENCY_SIZE : Nat := 10000

/-- Embedding of `_already_processed`: returns the boolean result together
with the updated ledger.  Dropping `length - capacity` entries from the
front is the effect of the `while len > cap: popitem(last=False)` loop. -/
def alreadyProcessed {K : Type} [DecidableEq K] (processed : List K) (key : K) :
    Bool × List K :=
  if key ∈ processed then
    (true, processed)
  else
    (false, (processed ++ [key]).drop ((processed ++ [key]).length - MAX_IDEMPOTENCY_SIZE))

/-- Run a sequence of `_already_processed` calls, keeping the final ledger. -/
def runLedger {K : Type} [DecidableEq K] (st : List K) (keys : List K) : List K :=
  keys.foldl (fun s k => (alreadyProcessed s k).2) st

theorem alreadyProcessed_fresh {K : Type} [DecidableEq K] (st : List K) (k : K)
    (h : k ∉ st) :
    (alreadyProcessed st k).1 = false ∧ k ∈ (alreadyProcessed st k).2 := by
  unfold alreadyProcessed
  rw [if_neg h]
  refine ⟨rfl, ?_⟩
  have hle : (st ++ [k]).length - MAX_IDEMPOTENCY_SIZE ≤ st.length := by
    simp only [List.length_append, List.length_singleton, MAX_IDEMPOTENCY_SIZE]
    omega
  rw [List.drop_append_of_le_length hle]
  simp

theorem alreadyProcessed_seen {K : Type} [DecidableEq K] (st : List K) (k : K)
    (h : k ∈ st) :
    (alreadyProcessed st k).1 = true ∧ (alreadyProcessed st k).2 = st := by
  unfold alreadyProcessed
  simp [h]

theorem alreadyProcessed_capacity {K : Type} [DecidableEq K] (st : List K) (k : K)
    (h : st.length ≤ MAX_IDEMPOTENCY_SIZE) :
    (alreadyProcessed st k).2.length ≤ MAX_IDEMPOTENCY_SIZE := by
  unfold alreadyProcessed
  by_cases hk : k ∈ st
  · simpa [hk]
  · simp only [if_neg hk]
    rw [List.length_drop]
    simp only [List.length_append, List.length_singleton]
    omega

/-- After inserting a nodup batch of fresh keys, the ledger is the suffix of
length at most the capacity: stepwise front-eviction equals one final
front-eviction. -/
theorem runLedger_nodup {K : Type} [DecidableEq K] :
    ∀ (ks st : List K), (st ++ ks).Nodup → st.length ≤ MAX_IDEMPOTENCY_SIZE →
      runLedger st ks = (st ++ ks).drop ((st ++ ks).length - MAX_IDEMPOTENCY_SIZE)
  | [], st, _, hle => by
    simp only [runLedger, List.foldl_nil, List.append_nil]
    rw [Nat.sub_eq_zero_of_le hle, List.drop_zero]
  | k :: ks, st, hnd, hle => by
    have hnot : k ∉ st := by
      rcases List.nodup_append.1 hnd with ⟨-, -, hdisj⟩
      exact fun hk => hdisj hk (by simp)
    have hd1st : (st ++ [k]).length - MAX_IDEMPOTENCY_SIZE ≤ st.length := by
      simp only [List.length_append, List.length_singleton, MAX_IDEMPOTENCY_SIZE]
      omega
    have hd1le : (st ++ [k]).length - MAX_IDEMPOTENCY_SIZE ≤ (st ++ [k]).length :=
      le_trans hd1st (by simp)
    have hstep : runLedger st (k :: ks) =
        runLedger ((st ++ [k]).drop ((st ++ [k]).length - MAX_IDEMPOTENCY_SIZE)) ks := by
      simp only [runLedger, List.foldl_cons, alreadyProcessed, if_neg hnot]
    have hsub2 : List.Sublist
        ((st ++ [k]).drop ((st ++ [k]).length - MAX_IDEMPOTENCY_SIZE) ++ ks)
        ((st ++ [k]) ++ ks) :=
      List.Sublist.append_right (List.drop_sublist _ _) ks
    have hassoc : (st ++ [k]) ++ ks = st ++ k :: ks := by simp
    have hnd2 : ((st ++ [k]).drop ((st ++ [k]).length - MAX_IDEMPOTENCY_SIZE) ++ ks).Nodup :=
      List.Nodup.sublist hsub2 (by rw [hassoc]; exact hnd)
    have hlen2 : ((st ++ [k]).drop ((st ++ [k]).length - MAX_IDEMPOTENCY_SIZE)).length
        ≤ MAX_IDEMPOTENCY_SIZE := by
      rw [List.length_drop]
      omega
    rw [hstep, runLedger_nodup ks _ hnd2 hlen2]
    have hdistrib : (st ++ [k]).drop ((st ++ [k]).length - MAX_IDEMPOTENCY_SIZE) ++ ks
        = ((st ++ [k]) ++ ks).drop ((st ++ [k]).length - MAX_IDEMPOTENCY_SIZE) :=
      (List.drop_append_of_le_length hd1le).symm
    rw [hdistrib, List.drop_drop, hassoc]
    refine congrArg (fun n => List.drop n (st ++ k :: ks)) ?_
    simp only [List.length_append, List.length_drop, List.length_cons,
      List.length_singleton, List.length_nil, MAX_IDEMPOTENCY_SIZE]
    omega
termination_by ks => ks.length

theorem runLedger_evicts_first {K : Type} [DecidableEq K] (ks : List K) (k₀ : K)
    (hnd : ks.Nodup) (hlen : ks.length = MAX_IDEMPOTENCY_SIZE + 1)
    (hhd : ks.head? = some k₀) :
    k₀ ∉ runLedger ([] : List K) ks := by
  have h := runLedger_nodup ks ([] : List K) (by simpa using hnd) (by simp)
  simp only [List.nil_append] at h
  rw [h, hlen]
  have hdrop : MAX_IDEMPOTENCY_SIZE + 1 - MAX_IDEMPOTENCY_SIZE = 1 := by omega
  rw [hdrop]
  cases ks with
  | nil => simp at hhd
  | cons a t =>
    simp only [List.head?_cons, Option.some.injEq] at hhd
    subst hhd
    simp only [List.drop_succ_cons, List.drop_zero]
    exact (List.nodup_cons.1 hnd).1

/-- C4.  The dedup ledger `_already_processed` (main.py 189-196): a first
call on a fresh key returns false and marks the key; a call on a seen key
returns true; the ledger never exceeds 10,000 entries after a call; and
eviction is oldest-first, so after 10,001 distinct fresh insertions the
first-inserted key is no longer recorded. -/
theorem dedup_ledger_spec {K : Type} [DecidableEq K]
    (st : List K) (k : K) (ks : List K) (k₀ : K)
    (hlen : st.length ≤ MAX_IDEMPOTENCY_SIZE)
    (hnd : ks.Nodup) (hks : ks.length = MAX_IDEMPOTENCY_SIZE + 1)
    (hhd : ks.head? = some k₀) :
    (k ∉ st → (alreadyProcessed st k).1 = false ∧ k ∈ (alreadyProcessed st k).2)
    ∧ (k ∈ st → (alreadyProcessed st k).1 = true)
    ∧ (alreadyProcessed st k).2.length ≤ MAX_IDEMPOTENCY_SIZE
    ∧ k₀ ∉ runLedger ([] : List K) ks := by
  refine ⟨fun h => alreadyProcessed_fresh st k h,
    fun h => (alreadyProcessed_seen st k h).1,
    alreadyProcessed_capacity st k hlen,
    runLedger_evicts_first ks k₀ hnd hks hhd⟩

/-- Witness for C4 at a concrete instance: the empty ledger and the key
sequence 0, 1, ..., 10000, whose first key 0 is evicted. -/
theorem dedup_ledger_spec_witness :
    ([] : List Nat).length ≤ MAX_IDEMPOTENCY_SIZE
    ∧ (List.range' 0 (MAX_IDEMPOTENCY_SIZE + 1)).Nodup
    ∧ (List.range' 0 (MAX_IDEMPOTENCY_SIZE + 1)).length = MAX_IDEMPOTENCY_SIZE + 1
    ∧ (List.range' 0 (MAX_IDEMPOTENCY_SIZE + 1)).head? = some 0
    ∧ ((7 : Nat) ∉ ([] : List Nat) →
        (alreadyProcessed ([] : List Nat) 7).1 = false
          ∧ 7 ∈ (alreadyProcessed ([] : List Nat) 7).2)
    ∧ (0 : Nat) ∉ runLedger ([] : List Nat) (List.range' 0 (MAX_IDEMPOTENCY_SIZE + 1)) := by
  have h1 : ([] : List Nat).length ≤ MAX_IDEMPOTENCY_SIZE := by simp
  have h2 : (List.range' 0 (MAX_IDEMPOTENCY_SIZE + 1)).Nodup :=
    List.nodup_range' 0 (MAX_IDEMPOTENCY_SIZE + 1) 1 (by norm_num)
  have h3 : (List.range' 0 (MAX_IDEMPOTENCY_SIZE + 1)).length = MAX_IDEMPOTENCY_SIZE + 1 := by
    simp
  have h4 : (List.range' 0 (MAX_IDEMPOTENCY_SIZE + 1)).head? = some 0 := rfl
  have h := dedup_ledger_spec ([] : List Nat) 7 (List.range' 0 (MAX_IDEMPOTENCY_SIZE + 1)) 0
    h1 h2 h3 h4
  exact ⟨h1, h2, h3, h4, h.1, h.2.2.2⟩

/-! ## Request authentication (`slack_verify.py`)

`verify_slack_request` is pure modulo the wall clock (`time.time()`, the
parameter `now`) and the HMAC-SHA256 hex digest, supplied as the oracle
`hmacHex : key → message → hexdigest` (an external library capability).
`hmac.compare_digest` is value-equality (its constant-time aspect is a
timing property with no functional content). -/

/-- Exact decimal stand-in for a Python float: the represented value is
`mantissa / 10 ^ scale`. -/
structure PyFloat where
  mantissa : Int
  scale : Nat
deriving DecidableEq

/-- `|d|` on integers, spelled out so it reduces in the kernel. -/
def intAbs (d : Int) : Int := if d < 0 then -d else d

/-- `|now - ts| > max_age` with `now` a decimal value and `ts`, `max_age`
integers, cleared of the denominator `10 ^ now.scale`. -/
def floatWindowExceeded (now : PyFloat) (ts max_age : Int) : Bool :=
  intAbs (now.mantissa - ts * 10 ^ now.scale) > max_age * 10 ^ now.scale

/-- Configuration attributes defined by `config.py`.  Note that
`EXTRACT_PHRASES_LIST` and `SLACK_USER_TOKEN` are deliberately absent:
`config.py` never defines them, and reading them raises `AttributeError`. -/
structure Config where
  SLACK_SIGNING_SECRET : String
  SLACK_BOT_TOKEN : String
  DEEPL_API_KEY : String
  CHANNEL_IDS_LIST : List String
  SLACK_REQUEST_MAX_AGE_SECONDS : Int
  TRANSLATE_TRIGGER : String
  TRANSLATE_PREFIX_VALUE : String
  REACTION_TRIGGER_EMOJI : String
  EXCLUDE_PHRASES_LIST : List String

/-- Python falsiness of an optional string (absent header or empty string). -/
def optFalsy : Option String → Bool
  | none => true
  | some s => s == ""

/-- Signed decimal value of a digit list, most significant first. -/
def digitsToInt (ds : List Char) : Int :=
  ds.foldl (fun a c => a * 10 + ((c.toNat : Int) - ('0'.toNat : Int))) 0

/-- Model of Python `int(string)`: strip whitespace, optional sign, then a
nonempty run of decimal digits; anything else raises `ValueError` (here:
`none`). -/
def pyInt (s : String) : Option Int :=
  match trimList s.toList with
  | [] => none
  | '-' :: ds =>
    if ds.isEmpty then none
    else if ds.all Char.isDigit then some (-(digitsToInt ds)) else none
  | '+' :: ds =>
    if ds.isEmpty then none
    else if ds.all Char.isDigit then some (digitsToInt ds) else none
  | ds => if ds.all Char.isDigit then some (digitsToInt ds) else none

/-- Embedding of `verify_slack_request` (slack_verify.py lines 11-36).
`time.time()` is the decimal `now`; exact decimals stand in for floats. -/
def verifySlackRequest (hmacHex : String → String → String) (cfg : Config)
    (now : PyFloat) (body : String) (signature timestamp : Option String)
    (max_age_seconds : Option Int) : Bool :=
  if cfg.SLACK_SIGNING_SECRET == "" || optFalsy signature || optFalsy timestamp then
    false
  else
    let tstr := timestamp.getD ""
    match pyInt tstr with
    | none => false
    | some ts =>
      let max_age : Int := max_age_seconds.getD cfg.SLACK_REQUEST_MAX_AGE_SECONDS
      if floatWindowExceeded now ts max_age then false
      else
        let sig_basestring := "v0:" ++ tstr ++ ":" ++ body
        let computed := "v0=" ++ hmacHex cfg.SLACK_SIGNING_SECRET sig_basestring
        computed == signature.getD ""

/-- C7.  Characterization of `verify_slack_request`: it returns false when
the signing secret, signature header or timestamp header is absent or empty,
or the timestamp does not parse as an integer, or the timestamp is further
than the replay window from the current time; otherwise it returns true
exactly when the supplied signature equals "v0=" followed by the hex HMAC of
"v0:" ++ timestamp ++ ":" ++ body under the signing secret. -/
theorem verify_slack_request_spec (hmacHex : String → String → String)
    (cfg : Config) (now : PyFloat) (body : String)
    (signature timestamp : Option String) (max_age_seconds : Option Int) :
    ((cfg.SLACK_SIGNING_SECRET = "" ∨ optFalsy signature = true ∨ optFalsy timestamp = true) →
      verifySlackRequest hmacHex cfg now body signature timestamp max_age_seconds = false)
    ∧ (∀ s, timestamp = some s → pyInt s = none →
      verifySlackRequest hmacHex cfg now body signature timestamp max_age_seconds = false)
    ∧ (∀ s t, timestamp = some s → pyInt s = some t →
      floatWindowExceeded now t (max_age_seconds.getD cfg.SLACK_REQUEST_MAX_AGE_SECONDS) = true →
      verifySlackRequest hmacHex cfg now body signature timestamp max_age_seconds = false)
    ∧ (∀ s t sv, cfg.SLACK_SIGNING_SECRET ≠ "" → signature = some sv → sv ≠ "" →
      timestamp = some s → s ≠ "" → pyInt s = some t →
      floatWindowExceeded now t (max_age_seconds.getD cfg.SLACK_REQUEST_MAX_AGE_SECONDS) = false →
      (verifySlackRequest hmacHex cfg now body signature timestamp max_age_seconds = true ↔
        sv = "v0=" ++ hmacHex cfg.SLACK_SIGNING_SECRET ("v0:" ++ s ++ ":" ++ body))) := by
  refine ⟨?_, ?_, ?_, ?_⟩
  · intro h
    have hc : (cfg.SLACK_SIGNING_SECRET == "" || optFalsy signature || optFalsy timestamp) = true := by
      rcases h with h | h | h <;> simp [h]
    simp [verifySlackRequest, hc]
  · intro s hts hp
    subst hts
    simp [verifySlackRequest, hp]
  · intro s t hts hp hgt
    subst hts
    simp only [verifySlackRequest, Option.getD_some, hp, hgt]
    simp
  · intro s t sv hsec hsig hsv hts hs hp hle
    subst hts
    subst hsig
    have hfal : (cfg.SLACK_SIGNING_SECRET == "" || optFalsy (some sv) || optFalsy (some s)) = false := by
      simp [optFalsy, hsec, hsv, hs]
    simp only [verifySlackRequest, hfal, Bool.false_eq_true, if_false, Option.getD_some, hp, hle]
    simp only [Bool.false_eq_true, if_false, beq_iff_eq]
    exact eq_comm

/-- Witness for C7 at a concrete instance: with a constant hex oracle,
secret "s", timestamp "100", clock 100, window 300, the matching signature
verifies. -/
theorem verify_slack_request_spec_witness :
    (let cfg : Config := ⟨"s", "", "", [], 300, "all", "", "de", []⟩
     let hh : String → String → String := fun _ _ => "aabb"
     verifySlackRequest hh cfg ⟨100, 0⟩ "{}" (some "v0=aabb") (some "100") none = true) := by
  have h := (verify_slack_request_spec (fun _ _ => "aabb")
    ⟨"s", "", "", [], 300, "all", "", "de", []⟩ ⟨100, 0⟩ "{}"
    (some "v0=aabb") (some "100") none).2.2.2 "100" 100 "v0=aabb"
    (by decide) rfl (by decide) rfl (by decide) (by decide) (by decide)
  exact h.2 rfl

/-! ## Emoji shortcode protection (`main.py` lines 17-35)

The Python regex `:([a-zA-Z0-9_+]+):` is scanned left to right with
non-overlapping matches (`re.sub`); each match is replaced by the
placeholder `:EMOJISLACK<i>:` and the original `:name:` is recorded.
Restoration replaces `:EMOJISLACK<i>:` by the recorded shortcode with
`str.replace` (all occurrences), in index order.  Texts are `List Char`
so that everything reduces in the kernel. -/

/-- Characters matched by the regex class `[a-zA-Z0-9_+]`. -/
def isEmojiChar (c : Char) : Bool := c.isAlphanum || c == '_' || c == '+'

/-- The placeholder marker `EMOJISLACK` from `_EMOJI_PLACEHOLDER`. -/
def emarker : List Char := ['E', 'M', 'O', 'J', 'I', 'S', 'L', 'A', 'C', 'K']

/-- Little-endian decimal digits of `n` (fuel-driven; fuel `n` suffices). -/
def digCharsAux : Nat → Nat → List Char
  | 0, _ => []
  | fuel + 1, n =>
    if n = 0 then [] else Nat.digitChar (n % 10) :: digCharsAux fuel (n / 10)

/-- Decimal digit characters of `n`, most significant first (Python `str(n)`
inside the f-string building the placeholder). -/
def digChars (n : Nat) : List Char :=
  if n = 0 then ['0'] else (digCharsAux n n).reverse

/-- The placeholder text `:EMOJISLACK<n>:`. -/
def placeholder (n : Nat) : List Char := ':' :: emarker ++ digChars n ++ [':']

/-- One attempted regex match at the head of the text: succeeds exactly when
the text starts with a colon, a nonempty run of class characters, and a
closing colon; returns the run and the text after the closing colon. -/
def matchEmoji (cs : List Char) : Option (List Char × List Char) :=
  match cs with
  | [] => none
  | c :: rest =>
    if c = ':' then
      if (rest.takeWhile isEmojiChar).isEmpty then none
      else
        match rest.dropWhile isEmojiChar with
        | [] => none
        | d :: tail =>
          if d = ':' then some (rest.takeWhile isEmojiChar, tail) else none
    else none

/-- Fuel-driven scan implementing `_EMOJI_PATTERN.sub(repl, text)` together
with the `shortcodes` accumulator of `_replace_slack_emojis_for_translation`:
at each position either a match is consumed (placeholder emitted, shortcode
recorded, numbering advanced) or one character is copied. -/
def protectFuel : Nat → List Char → Nat → List Char × List (List Char)
  | 0, _, _ => ([], [])
  | _ + 1, [], _ => ([], [])
  | fuel + 1, c :: rest, n =>
    match matchEmoji (c :: rest) with
    | some (run, tail) =>
      let r := protectFuel fuel tail (n + 1)
      (placeholder n ++ r.1, (':' :: run ++ [':']) :: r.2)
    | none =>
      let r := protectFuel fuel rest n
      (c :: r.1, r.2)

/-- Embedding of `_replace_slack_emojis_for_translation` on character lists. -/
def replaceSlackEmojisL (text : List Char) : List Char × List (List Char) :=
  protectFuel text.length text 0

/-- Embedding of the loop of `_restore_slack_emojis`, generalized over the
starting index (the source starts at 0): for each recorded shortcode, all
occurrences of its placeholder are replaced. -/
def restoreFrom : List Char → List (List Char) → Nat → List Char
  | t, [], _ => t
  | t, c :: cs, n => restoreFrom (replaceAll t (placeholder n) c) cs (n + 1)

/-- Embedding of `_replace_slack_emojis_for_translation` (main.py 22-28). -/
def replaceSlackEmojisForTranslation (text : String) : String × List String :=
  let r := replaceSlackEmojisL text.toList
  (String.mk r.1, r.2.map String.mk)

/-- Embedding of `_restore_slack_emojis` (main.py 31-35). -/
def restoreSlackEmojis (text : String) (shortcodes : List String) : String :=
  String.mk (restoreFrom text.toList (shortcodes.map String.toList) 0)

/-! ### Basic facts about the marker, digits and placeholders -/

theorem emarker_ne_nil : emarker ≠ [] := by decide

theorem colon_not_mem_emarker : ':' ∉ emarker := by decide

theorem isEmojiChar_colon : isEmojiChar ':' = false := by decide

theorem digitChar_isDigit {k : Nat} (h : k < 10) : (Nat.digitChar k).isDigit = true := by
  interval_cases k <;> decide

theorem digitChar_val {k : Nat} (h : k < 10) : (Nat.digitChar k).toNat - '0'.toNat = k := by
  interval_cases k <;> decide

theorem mem_digCharsAux_isDigit :
    ∀ fuel n c, c ∈ digCharsAux fuel n → c.isDigit = true := by
  intro fuel
  induction fuel with
  | zero => intro n c hc; simp [digCharsAux] at hc
  | succ f ih =>
    intro n c hc
    rw [digCharsAux] at hc
    by_cases hz : n = 0
    · rw [if_pos hz] at hc; simp at hc
    · rw [if_neg hz] at hc
      rcases List.mem_cons.1 hc with h | h
      · subst h; exact digitChar_isDigit (Nat.mod_lt _ (by omega))
      · exact ih _ _ h

theorem mem_digChars_isDigit {n : Nat} {c : Char} (hc : c ∈ digChars n) :
    c.isDigit = true := by
  unfold digChars at hc
  by_cases h : n = 0
  · rw [if_pos h] at hc
    simp at hc
    subst hc; decide
  · rw [if_neg h] at hc
    exact mem_digCharsAux_isDigit n n c (List.mem_reverse.1 hc)

theorem colon_not_mem_digChars {n : Nat} : ':' ∉ digChars n := by
  intro h
  have := mem_digChars_isDigit h
  simp at this

/-- Numeric readback of a little-endian digit list. -/
def readDigits : List Char → Nat
  | [] => 0
  | c :: rest => (c.toNat - '0'.toNat) + 10 * readDigits rest

theorem readDigits_digCharsAux : ∀ fuel n, n ≤ fuel → readDigits (digCharsAux fuel n) = n := by
  intro fuel
  induction fuel with
  | zero => intro n h; interval_cases n; rfl
  | succ f ih =>
    intro n h
    rw [digCharsAux]
    by_cases hz : n = 0
    · rw [if_pos hz, hz]; rfl
    · rw [if_neg hz, readDigits]
      rw [digitChar_val (Nat.mod_lt _ (by omega))]
      rw [ih (n / 10) (by
        have : n / 10 < n := Nat.div_lt_self (by omega) (by norm_num)
        omega)]
      omega

theorem digChars_inj {m n : Nat} (h : digChars m = digChars n) : m = n := by
  unfold digChars at h
  by_cases hm : m = 0 <;> by_cases hn : n = 0
  · omega
  · rw [if_pos hm, if_neg hn] at h
    have h2 : digCharsAux n n = ['0'] := by
      have := congrArg List.reverse h
      simpa using this.symm
    have h3 := readDigits_digCharsAux n n le_rfl
    rw [h2] at h3
    simp [readDigits] at h3
    omega
  · rw [if_neg hm, if_pos hn] at h
    have h2 : digCharsAux m m = ['0'] := by
      have := congrArg List.reverse h
      simpa using this
    have h3 := readDigits_digCharsAux m m le_rfl
    rw [h2] at h3
    simp [readDigits] at h3
    omega
  · rw [if_neg hm, if_neg hn] at h
    have h2 : digCharsAux m m = digCharsAux n n := List.reverse_injective h
    have h3 := readDigits_digCharsAux m m le_rfl
    have h4 := readDigits_digCharsAux n n le_rfl
    rw [h2] at h3
    omega

theorem placeholder_cons (k : Nat) :
    placeholder k = ':' :: (emarker ++ digChars k ++ [':']) := rfl

theorem placeholder_ne_nil (k : Nat) : placeholder k ≠ [] := by
  simp [placeholder]

/-! ### API for `replaceAll` and `containsSub` -/

theorem replaceAllF_fuel (pat rep : List Char) :
    ∀ f₁ f₂ s, s.length ≤ f₁ → s.length ≤ f₂ →
      replaceAllF pat rep f₁ s = replaceAllF pat rep f₂ s := by
  intro f₁
  induction f₁ with
  | zero =>
    intro f₂ s h₁ h₂
    have : s = [] := List.length_eq_zero.1 (by omega)
    subst this
    cases f₂ <;> rfl
  | succ f ih =>
    intro f₂ s h₁ h₂
    cases s with
    | nil => cases f₂ <;> rfl
    | cons c rest =>
      cases f₂ with
      | zero => simp at h₂
      | succ f₂' =>
        rw [replaceAllF, replaceAllF]
        by_cases hb : (pat.isPrefixOf (c :: rest) && !pat.isEmpty) = true
        · rw [if_pos hb, if_pos hb]
          have hpat : pat.length ≥ 1 := by
            simp only [Bool.and_eq_true, Bool.not_eq_true'] at hb
            cases pat with
            | nil => simp [List.isEmpty] at hb
            | cons _ _ => simp
          have hd : ((c :: rest).drop pat.length).length ≤ f := by
            rw [List.length_drop]
            simp only [List.length_cons] at h₁ ⊢
            omega
          have hd₂ : ((c :: rest).drop pat.length).length ≤ f₂' := by
            rw [List.length_drop]
            simp only [List.length_cons] at h₂ ⊢
            omega
          rw [ih f₂' _ hd hd₂]
        · rw [if_neg hb, if_neg hb]
          have : rest.length ≤ f := by simp only [List.length_cons] at h₁; omega
          have h2 : rest.length ≤ f₂' := by simp only [List.length_cons] at h₂; omega
          rw [ih f₂' rest this h2]

theorem replaceAll_pos {pat : List Char} (rep s : List Char) (hne : pat ≠ [])
    (hpre : pat <+: s) :
    replaceAll s pat rep = rep ++ replaceAll (s.drop pat.length) pat rep := by
  cases s with
  | nil =>
    rcases hpre with ⟨t, ht⟩
    exact absurd (List.append_eq_nil.1 ht).1 hne
  | cons c rest =>
    unfold replaceAll
    rw [show (c :: rest).length = rest.length + 1 from rfl, replaceAllF]
    have hb : (pat.isPrefixOf (c :: rest) && !pat.isEmpty) = true := by
      rw [Bool.and_eq_true]
      refine ⟨List.isPrefixOf_iff_prefix.2 hpre, ?_⟩
      simp [List.isEmpty_iff, hne]
    rw [if_pos hb]
    have hpat : pat.length ≥ 1 := by
      cases pat
      · exact absurd rfl hne
      · simp
    have hlen : ((c :: rest).drop pat.length).length ≤ rest.length := by
      rw [List.length_drop]
      simp only [List.length_cons]
      omega
    rw [replaceAllF_fuel pat rep rest.length ((c :: rest).drop pat.length).length _ hlen le_rfl]

theorem replaceAll_neg_cons {pat : List Char} (rep : List Char) (c : Char) (rest : List Char)
    (h : ¬ (pat <+: (c :: rest))) :
    replaceAll (c :: rest) pat rep = c :: replaceAll rest pat rep := by
  unfold replaceAll
  rw [show (c :: rest).length = rest.length + 1 from rfl, replaceAllF]
  have hb : (pat.isPrefixOf (c :: rest) && !pat.isEmpty) = false := by
    have : pat.isPrefixOf (c :: rest) = false :=
      Bool.eq_false_iff.2 (fun hb => h (List.isPrefixOf_iff_prefix.1 hb))
    simp [this]
  rw [if_neg (by simp [hb])]

theorem containsSub_iff (pat s : List Char) :
    containsSub pat s = true ↔ ∃ i, pat <+: s.drop i := by
  induction s with
  | nil =>
    simp only [containsSub, List.isEmpty_iff, List.drop_nil]
    constructor
    · intro h; exact ⟨0, by simp [h]⟩
    · rintro ⟨i, hi⟩; simpa using List.prefix_nil.1 hi
  | cons c rest ih =>
    simp only [containsSub, Bool.or_eq_true, List.isPrefixOf_iff_prefix, ih]
    constructor
    · rintro (h | ⟨i, hi⟩)
      · exact ⟨0, by simpa using h⟩
      · exact ⟨i + 1, by simpa using hi⟩
    · rintro ⟨i, hi⟩
      cases i with
      | zero => exact Or.inl (by simpa using hi)
      | succ j => exact Or.inr ⟨j, by simpa using hi⟩

theorem containsSub_of_starts {pat s : List Char} (h : pat <+: s) :
    containsSub pat s = true :=
  (containsSub_iff pat s).2 ⟨0, by simpa using h⟩

theorem containsSub_of_inside {pat s : List Char} (h : pat <:+: s) (hne : pat ≠ []) :
    containsSub pat s = true := by
  rcases h with ⟨u, v, huv⟩
  rcases huv with rfl
  refine (containsSub_iff pat _).2 ⟨u.length, ?_⟩
  rw [List.append_assoc, List.drop_append_of_le_length le_rfl]
  simp only [List.drop_length, List.nil_append]
  exact List.prefix_append pat v

theorem containsSub_mono_infix {pat t s : List Char} (h : containsSub pat s = false)
    (hts : t <:+: s) (hne : pat ≠ []) : containsSub pat t = false := by
  by_contra hcon
  simp only [Bool.not_eq_false] at hcon
  rcases (containsSub_iff pat t).1 hcon with ⟨i, hi⟩
  have : pat <:+: s := by
    refine List.IsInfix.trans ?_ hts
    have h1 : pat <:+: t.drop i := hi.isInfix
    exact h1.trans (t.drop_suffix i).isInfix
  rw [containsSub_of_inside this hne] at h
  exact absurd h (by simp)

theorem replaceAll_no_occurrence {pat : List Char} (rep s : List Char)
    (h : containsSub pat s = false) : replaceAll s pat rep = s := by
  induction s with
  | nil => rfl
  | cons c rest ih =>
    simp only [containsSub, Bool.or_eq_false_iff] at h
    rw [replaceAll_neg_cons rep c rest
      (fun hp => by simp [List.isPrefixOf_iff_prefix.2 hp] at h)]
    rw [ih h.2]

theorem replaceAll_append_no_start {pat : List Char} (rep : List Char) :
    ∀ (X Y : List Char),
      (∀ i, i < X.length → ¬ (pat <+: (X ++ Y).drop i)) →
      replaceAll (X ++ Y) pat rep = X ++ replaceAll Y pat rep := by
  intro X
  induction X with
  | nil => intro Y _; rfl
  | cons c X' ih =>
    intro Y h
    have h0 : ¬ (pat <+: (c :: (X' ++ Y))) := by
      have := h 0 (by simp)
      simpa using this
    rw [List.cons_append, replaceAll_neg_cons rep c (X' ++ Y) h0]
    rw [ih Y (fun i hi => by
      have := h (i + 1) (by simp; omega)
      simpa using this)]
    rfl

theorem containsSub_append_false {pat : List Char} (hne : pat ≠ []) (X Y : List Char)
    (hX : ∀ i, i < X.length → ¬ (pat <+: (X ++ Y).drop i))
    (hY : containsSub pat Y = false) :
    containsSub pat (X ++ Y) = false := by
  by_contra hcon
  simp only [Bool.not_eq_false] at hcon
  rcases (containsSub_iff pat _).1 hcon with ⟨i, hi⟩
  by_cases hlt : i < X.length
  · exact hX i hlt hi
  · have : (X ++ Y).drop i = Y.drop (i - X.length) := by
      rw [List.drop_append_eq_append_drop]
      rw [List.drop_eq_nil_of_le (by omega), List.nil_append]
    rw [this] at hi
    have := (containsSub_iff pat Y).2 ⟨i - X.length, hi⟩
    rw [this] at hY
    exact absurd hY (by simp)

theorem prefix_append_cases {α : Type} (p a b : List α) (h : p <+: a ++ b) :
    p <+: a ∨ (∃ q, p = a ++ q ∧ q <+: b) := by
  by_cases hl : p.length ≤ a.length
  · exact Or.inl (List.prefix_of_prefix_length_le h (List.prefix_append a b) hl)
  · right
    have hap : a <+: p :=
      List.prefix_of_prefix_length_le (List.prefix_append a b) h (by omega)
    rcases hap with ⟨q, hq⟩
    refine ⟨q, hq.symm, ?_⟩
    rw [← hq] at h
    exact (List.prefix_append_right_inj a).1 h

/-! ### Segment representation of protected texts

The output of the protect scan, and every intermediate text arising while
`_restore_slack_emojis` walks its shortcode list, is a concatenation of
segments: literal runs copied from the original text (`txt`), pending
placeholders (`pend`, rendered as `:EMOJISLACK<i>:` with a positional
index), and already-restored shortcodes (`done`, rendered as `:run:`).
Positional indices are assigned left to right to `pend` and `done`
segments alike. -/

inductive PItem : Type
  | txt (s : List Char)
  | pend (r : List Char)
  | done (r : List Char)

def isTxt : PItem → Bool
  | .txt _ => true
  | _ => false

/-- Render a segment list, assigning placeholder indices from `n`. -/
def mixText (n : Nat) : List PItem → List Char
  | [] => []
  | .txt s :: rest => s ++ mixText n rest
  | .pend _ :: rest => placeholder n ++ mixText (n + 1) rest
  | .done r :: rest => (':' :: r ++ [':']) ++ mixText (n + 1) rest

/-- The shortcode texts of the pending segments, in order. -/
def pendCodes : List PItem → List (List Char)
  | [] => []
  | .pend r :: rest => (':' :: r ++ [':']) :: pendCodes rest
  | .txt _ :: rest => pendCodes rest
  | .done _ :: rest => pendCodes rest

/-- Render a segment list with every placeholder already restored. -/
def doneText : List PItem → List Char
  | [] => []
  | .txt s :: rest => s ++ doneText rest
  | .pend r :: rest => (':' :: r ++ [':']) ++ doneText rest
  | .done r :: rest => (':' :: r ++ [':']) ++ doneText rest

/-- Well-formedness of one segment: literal runs are free of the marker,
shortcode runs are nonempty, drawn from the regex class (hence colon-free),
and free of the marker. -/
def itemOK : PItem → Prop
  | .txt s => containsSub emarker s = false
  | .pend r => r ≠ [] ∧ (∀ c ∈ r, isEmojiChar c = true) ∧ containsSub emarker r = false
  | .done r => r ≠ [] ∧ (∀ c ∈ r, isEmojiChar c = true) ∧ containsSub emarker r = false

/-- No two adjacent literal segments (placeholders separate literal runs). -/
def TxtSep : List PItem → Prop
  | [] => True
  | [_] => True
  | a :: b :: rest => (isTxt a = false ∨ isTxt b = false) ∧ TxtSep (b :: rest)

theorem txtSep_tail {it : PItem} {rest : List PItem} (h : TxtSep (it :: rest)) :
    TxtSep rest := by
  cases rest with
  | nil => trivial
  | cons b t => exact h.2

/-- The continuation after a literal segment starts with a colon (or ends). -/
def ColonStart (Y : List Char) : Prop := Y = [] ∨ ∃ t, Y = ':' :: t

theorem mixText_colonStart (n : Nat) (items : List PItem)
    (h : ∀ s, items.head? ≠ some (PItem.txt s)) :
    ColonStart (mixText n items) := by
  cases items with
  | nil => exact Or.inl rfl
  | cons it rest =>
    cases it with
    | txt s => exact absurd rfl (h s)
    | pend r => exact Or.inr ⟨_, rfl⟩
    | done r => exact Or.inr ⟨_, rfl⟩

theorem emarker_prefix_ph_tail (k : Nat) :
    emarker <+: emarker ++ digChars k ++ [':'] :=
  (List.prefix_append emarker (digChars k)).trans (List.prefix_append _ [':'])

/-- Core blocking fact: the marker cannot start at the head of a
marker-free text followed by a colon-guarded continuation. -/
theorem emarker_not_prefix_append (s Y : List Char)
    (hs : containsSub emarker s = false) (hY : ColonStart Y) :
    ¬ (emarker <+: s ++ Y) := by
  intro h
  rcases prefix_append_cases emarker s Y h with h1 | ⟨q, hq, hqY⟩
  · rw [containsSub_of_starts h1] at hs
    exact absurd hs (by simp)
  · cases q with
    | nil =>
      rw [List.append_nil] at hq
      rw [hq, containsSub_of_starts (List.prefix_refl s)] at hs
      exact absurd hs (by simp)
    | cons c q' =>
      have hc : c ∈ emarker := by rw [hq]; simp
      rcases hY with rfl | ⟨t, rfl⟩
      · rcases hqY with ⟨w, hw⟩
        simp at hw
      · have hcc := (List.cons_prefix_cons.1 hqY).1
        subst hcc
        exact colon_not_mem_emarker hc

/-- The rendering of a well-formed, separated segment list never starts
with the marker (its head is a colon or a marker-free literal). -/
theorem mixText_emarker_not_prefix (items : List PItem) (n : Nat)
    (hOK : ∀ it ∈ items, itemOK it) (hsep : TxtSep items) :
    ¬ (emarker <+: mixText n items) := by
  cases items with
  | nil =>
    intro h
    rw [show mixText n [] = [] from rfl] at h
    exact emarker_ne_nil (List.prefix_nil.1 h)
  | cons it rest =>
    cases it with
    | txt s =>
      have hs : containsSub emarker s = false :=
        hOK (PItem.txt s) (List.mem_cons_self _ _)
      have hcs : ColonStart (mixText n rest) := by
        refine mixText_colonStart n rest (fun s' hh => ?_)
        cases rest with
        | nil => simp at hh
        | cons b t =>
          have hb : isTxt b = false := by
            rcases hsep.1 with h1 | h1
            · simp [isTxt] at h1
            · exact h1
          simp only [List.head?_cons, Option.some.injEq] at hh
          rw [hh] at hb
          simp [isTxt] at hb
      exact emarker_not_prefix_append s _ hs hcs
    | pend r =>
      intro h
      have h2 : emarker <+: ':' :: (emarker ++ digChars n ++ [':'] ++ mixText (n + 1) rest) := by
        simpa [mixText, placeholder] using h
      have := (List.cons_prefix_cons.1 h2).1
      simp [emarker] at this
    | done r =>
      intro h
      have h2 : emarker <+: ':' :: (r ++ [':'] ++ mixText (n + 1) rest) := by
        simpa [mixText] using h
      have := (List.cons_prefix_cons.1 h2).1
      simp [emarker] at this

/-- Colon-free nonempty digit separation: if a colon-free word followed by a
colon is a prefix of another colon-free word followed by a colon, the two
words coincide. -/
theorem sep_inj : ∀ (x y u : List Char), ':' ∉ x → ':' ∉ y →
    (x ++ [':'] <+: y ++ ':' :: u) → x = y := by
  intro x
  induction x with
  | nil =>
    intro y u _ hy h
    cases y with
    | nil => rfl
    | cons c y' =>
      exfalso
      rw [List.nil_append, List.cons_append] at h
      have hcc := (List.cons_prefix_cons.1 h).1
      subst hcc
      simp at hy
  | cons a x' ih =>
    intro y u hx hy h
    cases y with
    | nil =>
      exfalso
      rw [List.cons_append, List.nil_append] at h
      have hcc := (List.cons_prefix_cons.1 h).1
      subst hcc
      simp at hx
    | cons c y' =>
      rw [List.cons_append, List.cons_append] at h
      have h1 := List.cons_prefix_cons.1 h
      have hx' : ':' ∉ x' := fun hm => hx (List.mem_cons_of_mem _ hm)
      have hy' : ':' ∉ y' := fun hm => hy (List.mem_cons_of_mem _ hm)
      rw [h1.1, ih y' u hx' hy' h1.2]

/-- The interior obligation at offset 0 for a restored-shortcode block. -/
theorem noStart0_code (r Y : List Char) (k : Nat)
    (hrm : containsSub emarker r = false) :
    ¬ (emarker ++ digChars k ++ [':'] <+: r ++ ':' :: Y) := by
  intro h
  exact emarker_not_prefix_append r (':' :: Y) hrm (Or.inr ⟨Y, rfl⟩)
    ((emarker_prefix_ph_tail k).trans h)

/-- The interior obligation at offset 0 for a placeholder block with a
different index: the digit runs would have to coincide. -/
theorem noStart0_ph (j k : Nat) (Y : List Char) (hjk : j ≠ k) :
    ¬ (emarker ++ digChars k ++ [':'] <+: (emarker ++ digChars j) ++ ':' :: Y) := by
  intro h
  have h2 : digChars k ++ [':'] <+: digChars j ++ ':' :: Y := by
    have h' : emarker ++ (digChars k ++ [':']) <+: emarker ++ (digChars j ++ ':' :: Y) := by
      simpa [List.append_assoc] using h
    exact (List.prefix_append_right_inj emarker).1 h'
  have := sep_inj (digChars k) (digChars j) Y colon_not_mem_digChars colon_not_mem_digChars h2
  exact hjk (digChars_inj this).symm

/-- No placeholder can start strictly inside a colon-delimited block
`':' :: B ++ [':']` whose interior is colon-free, given that the block's
own offset-0 obligation holds and the continuation does not begin with the
marker. -/
theorem noStart_block (B Y : List Char) (k : Nat)
    (hB : ':' ∉ B)
    (h0 : ¬ (emarker ++ digChars k ++ [':'] <+: B ++ ':' :: Y))
    (hY : ¬ (emarker <+: Y)) :
    ∀ i, i < (':' :: B ++ [':']).length →
      ¬ (placeholder k <+: ((':' :: B ++ [':']) ++ Y).drop i) := by
  intro i hi h
  have hXY : (':' :: B ++ [':']) ++ Y = ':' :: (B ++ ':' :: Y) := by simp
  rw [hXY] at h
  cases i with
  | zero =>
    rw [List.drop_zero, placeholder_cons] at h
    exact h0 (List.cons_prefix_cons.1 h).2
  | succ j =>
    rw [List.drop_succ_cons] at h
    by_cases hj : j < B.length
    · have hdj : (B ++ ':' :: Y).drop j = B.drop j ++ ':' :: Y :=
        List.drop_append_of_le_length (le_of_lt hj)
      rw [hdj] at h
      obtain ⟨c, w, hcw⟩ : ∃ c w, B.drop j = c :: w := by
        cases hBd : B.drop j with
        | nil =>
          exfalso
          have hlen := congrArg List.length hBd
          rw [List.length_drop, List.length_nil] at hlen
          omega
        | cons c w => exact ⟨c, w, rfl⟩
      rw [hcw, placeholder_cons] at h
      have hcc := (List.cons_prefix_cons.1 (by simpa using h)).1
      have hcB : c ∈ B := List.mem_of_mem_drop (hcw ▸ List.mem_cons_self c w)
      exact hB (hcc ▸ hcB)
    · have hj2 : j = B.length := by
        simp only [List.length_append, List.length_cons, List.length_singleton,
          List.length_nil] at hi
        omega
      subst hj2
      rw [List.drop_left, placeholder_cons] at h
      have h2 := (List.cons_prefix_cons.1 h).2
      exact hY ((emarker_prefix_ph_tail k).trans h2)

/-- No placeholder can start strictly inside a marker-free literal run with
a colon-guarded continuation. -/
theorem noStart_txt (s Y : List Char) (k : Nat)
    (hs : containsSub emarker s = false) (hY : ColonStart Y) :
    ∀ i, i < s.length → ¬ (placeholder k <+: (s ++ Y).drop i) := by
  intro i hi h
  rw [List.drop_append_of_le_length (le_of_lt hi), placeholder_cons] at h
  have h1 := h.drop 1
  have hlen : 1 ≤ (s.drop i).length := by
    rw [List.length_drop]; omega
  rw [List.drop_append_of_le_length hlen] at h1
  simp only [List.drop_succ_cons, List.drop_zero, List.drop_drop] at h1
  have h3 : emarker <+: s.drop (i + 1) ++ Y := (emarker_prefix_ph_tail k).trans h1
  have hs' : containsSub emarker (s.drop (i + 1)) = false :=
    containsSub_mono_infix hs (s.drop_suffix (i + 1)).isInfix emarker_ne_nil
  exact emarker_not_prefix_append (s.drop (i + 1)) Y hs' hY h3

/-- Rendered well-formed separated segments contain no occurrence of a
placeholder whose index is below every index in use. -/
theorem mixText_no_ph : ∀ (items : List PItem) (n k : Nat), k < n →
    (∀ it ∈ items, itemOK it) → TxtSep items →
    containsSub (placeholder k) (mixText n items) = false := by
  intro items
  induction items with
  | nil =>
    intro n k _ _ _
    cases hp : placeholder k with
    | nil => exact absurd hp (placeholder_ne_nil k)
    | cons c t => rfl
  | cons it rest ih =>
    intro n k hk hOK hsep
    have hOK' : ∀ x ∈ rest, itemOK x := fun x hx => hOK x (by simp [hx])
    cases it with
    | txt s =>
      have hs : containsSub emarker s = false :=
        hOK (PItem.txt s) (List.mem_cons_self _ _)
      show containsSub (placeholder k) (s ++ mixText n rest) = false
      refine containsSub_append_false (placeholder_ne_nil k) s (mixText n rest) ?_ ?_
      · refine noStart_txt s _ k hs ?_
        refine mixText_colonStart n rest (fun s' hh => ?_)
        cases rest with
        | nil => simp at hh
        | cons b t =>
          have hb : isTxt b = false := by
            rcases hsep.1 with h1 | h1
            · simp [isTxt] at h1
            · exact h1
          simp only [List.head?_cons, Option.some.injEq] at hh
          rw [hh] at hb
          simp [isTxt] at hb
      · exact ih n k hk hOK' (txtSep_tail hsep)
    | pend r =>
      have heq : mixText n (PItem.pend r :: rest)
          = (':' :: (emarker ++ digChars n) ++ [':']) ++ mixText (n + 1) rest := by
        simp [mixText, placeholder]
      rw [heq]
      refine containsSub_append_false (placeholder_ne_nil k) _ _ ?_ ?_
      · refine noStart_block (emarker ++ digChars n) (mixText (n + 1) rest) k ?_ ?_ ?_
        · intro hmem
          rcases List.mem_append.1 hmem with hm | hm
          · exact colon_not_mem_emarker hm
          · exact colon_not_mem_digChars hm
        · exact noStart0_ph n k _ (by omega)
        · exact fun hpre =>
            mixText_emarker_not_prefix rest (n + 1) hOK' (txtSep_tail hsep) hpre
      · exact ih (n + 1) k (by omega) hOK' (txtSep_tail hsep)
    | done r =>
      have heq : mixText n (PItem.done r :: rest)
          = (':' :: r ++ [':']) ++ mixText (n + 1) rest := rfl
      rw [heq]
      rcases hOK _ (List.mem_cons_self _ _) with ⟨hr1, hr2, hr3⟩
      refine containsSub_append_false (placeholder_ne_nil k) _ _ ?_ ?_
      · refine noStart_block r (mixText (n + 1) rest) k ?_ ?_ ?_
        · intro hmem
          have := hr2 _ hmem
          simp [isEmojiChar] at this
        · exact noStart0_code r _ k hr3
        · exact fun hpre =>
            mixText_emarker_not_prefix rest (n + 1) hOK' (txtSep_tail hsep) hpre
      · exact ih (n + 1) k (by omega) hOK' (txtSep_tail hsep)

/-! ### The staged restore walk -/

/-- Stage invariant: reading positional indices from `n`, every restored
segment has index below `m` and every pending segment has index at least
`m` (the restore loop is about to process index `m`). -/
def StagedFrom (m : Nat) : Nat → List PItem → Prop
  | _, [] => True
  | n, .txt _ :: rest => StagedFrom m n rest
  | n, .pend _ :: rest => m ≤ n ∧ StagedFrom m (n + 1) rest
  | n, .done _ :: rest => n < m ∧ StagedFrom m (n + 1) rest

/-- Convert the first pending segment into a restored one. -/
def convertFirstPend : List PItem → List PItem
  | [] => []
  | .pend r :: rest => .done r :: rest
  | .txt s :: rest => .txt s :: convertFirstPend rest
  | .done r :: rest => .done r :: convertFirstPend rest

/-- The run of the first pending segment, if any. -/
def firstPendRun : List PItem → Option (List Char)
  | [] => none
  | .pend r :: _ => some r
  | .txt _ :: rest => firstPendRun rest
  | .done _ :: rest => firstPendRun rest

theorem stagedFrom_mono : ∀ (items : List PItem) (m n : Nat),
    StagedFrom m n items → m < n → StagedFrom (m + 1) n items := by
  intro items
  induction items with
  | nil => intro m n _ _; trivial
  | cons it rest ih =>
    intro m n hst hmn
    cases it with
    | txt s => exact ih m n hst hmn
    | pend r =>
      obtain ⟨h1, h2⟩ := hst
      exact ⟨by omega, ih m (n + 1) h2 (by omega)⟩
    | done r =>
      obtain ⟨h1, h2⟩ := hst
      exact ⟨by omega, ih m (n + 1) h2 (by omega)⟩

theorem stagedFrom_convert : ∀ (items : List PItem) (m n : Nat),
    StagedFrom m n items → n ≤ m → StagedFrom (m + 1) n (convertFirstPend items) := by
  intro items
  induction items with
  | nil => intro m n _ _; trivial
  | cons it rest ih =>
    intro m n hst hnm
    cases it with
    | txt s => exact ih m n hst hnm
    | pend r =>
      obtain ⟨h1, h2⟩ := hst
      exact ⟨by omega, stagedFrom_mono rest m (n + 1) h2 (by omega)⟩
    | done r =>
      obtain ⟨h1, h2⟩ := hst
      exact ⟨by omega, ih m (n + 1) h2 (by omega)⟩

theorem itemOK_convert : ∀ (items : List PItem), (∀ it ∈ items, itemOK it) →
    ∀ it ∈ convertFirstPend items, itemOK it := by
  intro items
  induction items with
  | nil => intro h it hit; simp [convertFirstPend] at hit
  | cons a rest ih =>
    intro h it hit
    have ha := h a (List.mem_cons_self _ _)
    have ht := fun x hx => h x (List.mem_cons_of_mem _ hx)
    cases a with
    | txt s =>
      rcases List.mem_cons.1 hit with rfl | hm
      · exact ha
      · exact ih ht it hm
    | pend r =>
      rcases List.mem_cons.1 hit with rfl | hm
      · exact ha
      · exact ht it hm
    | done r =>
      rcases List.mem_cons.1 hit with rfl | hm
      · exact ha
      · exact ih ht it hm

theorem txtSep_convert : ∀ (items : List PItem), TxtSep items →
    TxtSep (convertFirstPend items)
  | [], h => h
  | [a], _ => by cases a <;> trivial
  | a :: b :: rest, h => by
    have ht : TxtSep (convertFirstPend (b :: rest)) :=
      txtSep_convert (b :: rest) h.2
    cases a with
    | pend r => exact ⟨Or.inl rfl, h.2⟩
    | txt s =>
      have h1 : isTxt b = false := by
        rcases h.1 with h1 | h1
        · simp [isTxt] at h1
        · exact h1
      cases b with
      | txt s' => simp [isTxt] at h1
      | pend r' => exact ⟨Or.inr rfl, ht⟩
      | done r' => exact ⟨Or.inr rfl, ht⟩
    | done r =>
      cases b with
      | txt s' => exact ⟨Or.inl rfl, ht⟩
      | pend r' => exact ⟨Or.inl rfl, ht⟩
      | done r' => exact ⟨Or.inl rfl, ht⟩

theorem pendCodes_convert : ∀ (items : List PItem) (r : List Char),
    firstPendRun items = some r →
    pendCodes items = (':' :: r ++ [':']) :: pendCodes (convertFirstPend items) := by
  intro items
  induction items with
  | nil => intro r h; simp [firstPendRun] at h
  | cons a rest ih =>
    intro r h
    cases a with
    | txt s => exact ih r h
    | done r' => exact ih r h
    | pend r' =>
      have : r' = r := by simpa [firstPendRun] using h
      subst this
      rfl

theorem doneText_convert : ∀ (items : List PItem),
    doneText (convertFirstPend items) = doneText items := by
  intro items
  induction items with
  | nil => rfl
  | cons a rest ih =>
    cases a with
    | txt s => show s ++ doneText (convertFirstPend rest) = s ++ doneText rest; rw [ih]
    | pend r => rfl
    | done r =>
      show (':' :: r ++ [':']) ++ doneText (convertFirstPend rest)
          = (':' :: r ++ [':']) ++ doneText rest
      rw [ih]

theorem firstPendRun_of_pendCodes : ∀ (items : List PItem) (c : List Char)
    (cs : List (List Char)), pendCodes items = c :: cs →
    ∃ r, firstPendRun items = some r ∧ c = ':' :: r ++ [':'] := by
  intro items
  induction items with
  | nil => intro c cs h; simp [pendCodes] at h
  | cons a rest ih =>
    intro c cs h
    cases a with
    | txt s => exact ih c cs h
    | done r => exact ih c cs h
    | pend r =>
      refine ⟨r, rfl, ?_⟩
      have : (':' :: r ++ [':']) :: pendCodes rest = c :: cs := h
      exact (List.cons.injEq _ _ _ _ ▸ this).1.symm

/-- The continuation after a literal head segment is colon-guarded. -/
theorem colonStart_after_txt {s : List Char} {rest : List PItem} (n : Nat)
    (hsep : TxtSep (PItem.txt s :: rest)) : ColonStart (mixText n rest) := by
  refine mixText_colonStart n rest (fun s' hh => ?_)
  cases rest with
  | nil => simp at hh
  | cons b t =>
    have hb : isTxt b = false := by
      rcases hsep.1 with h1 | h1
      · simp [isTxt] at h1
      · exact h1
    simp only [List.head?_cons, Option.some.injEq] at hh
    rw [hh] at hb
    simp [isTxt] at hb

/-- One restore step: replacing the current placeholder in the rendered
text converts exactly the first pending segment. -/
theorem replace_step : ∀ (items : List PItem) (n m : Nat) (r₀ : List Char),
    (∀ it ∈ items, itemOK it) → TxtSep items → StagedFrom m n items → n ≤ m →
    firstPendRun items = some r₀ →
    replaceAll (mixText n items) (placeholder m) (':' :: r₀ ++ [':'])
      = mixText n (convertFirstPend items) := by
  intro items
  induction items with
  | nil => intro n m r₀ _ _ _ _ hfp; simp [firstPendRun] at hfp
  | cons it rest ih =>
    intro n m r₀ hOK hsep hstaged hnm hfp
    have hOK' := fun x hx => hOK x (List.mem_cons_of_mem _ hx)
    cases it with
    | txt s =>
      have hs : containsSub emarker s = false :=
        hOK (PItem.txt s) (List.mem_cons_self _ _)
      show replaceAll (s ++ mixText n rest) (placeholder m) (':' :: r₀ ++ [':'])
          = s ++ mixText n (convertFirstPend rest)
      rw [replaceAll_append_no_start (':' :: r₀ ++ [':']) s (mixText n rest)
        (noStart_txt s _ m hs (colonStart_after_txt n hsep))]
      rw [ih n m r₀ hOK' (txtSep_tail hsep) hstaged hnm hfp]
    | done r =>
      rcases (hOK (PItem.done r) (List.mem_cons_self _ _) :
        r ≠ [] ∧ (∀ c ∈ r, isEmojiChar c = true) ∧ containsSub emarker r = false)
        with ⟨hr1, hr2, hr3⟩
      show replaceAll ((':' :: r ++ [':']) ++ mixText (n + 1) rest) (placeholder m)
            (':' :: r₀ ++ [':'])
          = (':' :: r ++ [':']) ++ mixText (n + 1) (convertFirstPend rest)
      rw [replaceAll_append_no_start (':' :: r₀ ++ [':']) (':' :: r ++ [':'])
        (mixText (n + 1) rest)
        (noStart_block r (mixText (n + 1) rest) m
          (fun hmem => by have := hr2 _ hmem; simp [isEmojiChar] at this)
          (noStart0_code r _ m hr3)
          (fun hpre => mixText_emarker_not_prefix rest (n + 1) hOK'
            (txtSep_tail hsep) hpre))]
      obtain ⟨hs1, hs2⟩ := hstaged
      rw [ih (n + 1) m r₀ hOK' (txtSep_tail hsep) hs2 (by omega) hfp]
    | pend r =>
      have hr : r = r₀ := by simpa [firstPendRun] using hfp
      subst hr
      obtain ⟨hs1, hs2⟩ := hstaged
      have hnm' : n = m := le_antisymm hnm hs1
      subst hnm'
      show replaceAll (placeholder n ++ mixText (n + 1) rest) (placeholder n)
            (':' :: r ++ [':'])
          = (':' :: r ++ [':']) ++ mixText (n + 1) rest
      rw [replaceAll_pos (':' :: r ++ [':']) _ (placeholder_ne_nil n)
        (List.prefix_append _ _)]
      rw [List.drop_left]
      rw [replaceAll_no_occurrence (':' :: r ++ [':']) _
        (mixText_no_ph rest (n + 1) n (by omega) hOK' (txtSep_tail hsep))]

/-- When no pending segments remain, the rendering is fully restored. -/
theorem mixText_of_no_pend : ∀ (items : List PItem) (n : Nat),
    pendCodes items = [] → mixText n items = doneText items := by
  intro items
  induction items with
  | nil => intro n _; rfl
  | cons a rest ih =>
    intro n h
    cases a with
    | txt s =>
      show s ++ mixText n rest = s ++ doneText rest
      rw [ih n h]
    | pend r => simp [pendCodes] at h
    | done r =>
      show (':' :: r ++ [':']) ++ mixText (n + 1) rest
          = (':' :: r ++ [':']) ++ doneText rest
      rw [ih (n + 1) h]

/-- Running the whole restore loop over the pending shortcodes recovers the
fully restored rendering. -/
theorem restore_all : ∀ (cnt : Nat) (items : List PItem) (m n : Nat),
    (pendCodes items).length = cnt →
    (∀ it ∈ items, itemOK it) → TxtSep items → StagedFrom m n items → n ≤ m →
    restoreFrom (mixText n items) (pendCodes items) m = doneText items := by
  intro cnt
  induction cnt with
  | zero =>
    intro items m n hc _ _ _ _
    have h0 : pendCodes items = [] := List.length_eq_zero.1 hc
    rw [h0]
    show mixText n items = doneText items
    exact mixText_of_no_pend items n h0
  | succ c ihc =>
    intro items m n hc hOK hsep hst hnm
    cases hpc : pendCodes items with
    | nil => rw [hpc] at hc; simp at hc
    | cons c₀ cs =>
      obtain ⟨r, hfp, hc₀⟩ := firstPendRun_of_pendCodes items c₀ cs hpc
      show restoreFrom (replaceAll (mixText n items) (placeholder m) c₀) cs (m + 1)
          = doneText items
      rw [hc₀, replace_step items n m r hOK hsep hst hnm hfp]
      have hpcc := pendCodes_convert items r hfp
      rw [hpc, hc₀] at hpcc
      have hcs2 : cs = pendCodes (convertFirstPend items) := by
        exact (List.cons.injEq _ _ _ _ ▸ hpcc).2
      rw [hcs2]
      rw [ihc (convertFirstPend items) (m + 1) n
        (by
          have : (pendCodes (convertFirstPend items)).length + 1 = c + 1 := by
            rw [← hcs2]
            have := congrArg List.length hpc
            simp at this
            omega
          omega)
        (itemOK_convert items hOK) (txtSep_convert items hsep)
        (stagedFrom_convert items m n hst hnm) (by omega)]
      exact doneText_convert items

/-! ### The protect scan produces a segment representation -/

theorem matchEmoji_some {cs run tail : List Char}
    (h : matchEmoji cs = some (run, tail)) :
    cs = ':' :: run ++ ':' :: tail ∧ run ≠ [] ∧ ∀ ch ∈ run, isEmojiChar ch = true := by
  match cs with
  | [] => simp [matchEmoji] at h
  | c :: rest =>
    rw [matchEmoji] at h
    by_cases hc : c = ':'
    · rw [if_pos hc] at h
      subst hc
      by_cases he : (rest.takeWhile isEmojiChar).isEmpty
      · rw [if_pos he] at h; exact absurd h (by simp)
      · rw [if_neg he] at h
        cases hdw : rest.dropWhile isEmojiChar with
        | nil => rw [hdw] at h; exact absurd h (by simp)
        | cons d tail' =>
          rw [hdw] at h
          have h' : (if d = ':' then some (rest.takeWhile isEmojiChar, tail') else none)
              = some (run, tail) := h
          clear h
          by_cases hd : d = ':'
          · rw [if_pos hd] at h'
            subst hd
            have h2 : rest.takeWhile isEmojiChar = run ∧ tail' = tail := by
              have := Option.some.inj h'
              exact ⟨congrArg Prod.fst this, congrArg Prod.snd this⟩
            obtain ⟨hrun, htail⟩ := h2
            subst htail
            refine ⟨?_, ?_, ?_⟩
            · have := List.takeWhile_append_dropWhile isEmojiChar rest
              rw [hrun, hdw] at this
              rw [← this]
              simp
            · intro hnil
              rw [hnil] at hrun
              rw [hrun] at he
              simp at he
            · intro ch hch
              exact List.mem_takeWhile_imp (hrun ▸ hch)
          · rw [if_neg hd] at h'; exact absurd h' (by simp)
    · rw [if_neg hc] at h; exact absurd h (by simp)

/-- Prepend a literal character to a segment list, merging with a leading
literal run when there is one (the protect scan copies one character). -/
def consTxt (c : Char) : List PItem → List PItem
  | [] => [.txt [c]]
  | .txt s :: rest => .txt (c :: s) :: rest
  | .pend r :: rest => .txt [c] :: .pend r :: rest
  | .done r :: rest => .txt [c] :: .done r :: rest

theorem mixText_consTxt (c : Char) (n : Nat) : ∀ (items : List PItem),
    mixText n (consTxt c items) = c :: mixText n items := by
  intro items
  cases items with
  | nil => rfl
  | cons a rest => cases a <;> rfl

theorem doneText_consTxt (c : Char) : ∀ (items : List PItem),
    doneText (consTxt c items) = c :: doneText items := by
  intro items
  cases items with
  | nil => rfl
  | cons a rest => cases a <;> rfl

theorem pendCodes_consTxt (c : Char) : ∀ (items : List PItem),
    pendCodes (consTxt c items) = pendCodes items := by
  intro items
  cases items with
  | nil => rfl
  | cons a rest => cases a <;> rfl

/-- Segment shape produced by the protect scan: literal runs are
unconstrained, pending runs come from the regex class, nothing is
restored yet. -/
def protShape : PItem → Prop
  | .txt _ => True
  | .pend r => r ≠ [] ∧ (∀ c ∈ r, isEmojiChar c = true)
  | .done _ => False

theorem protShape_consTxt (c : Char) : ∀ (items : List PItem),
    (∀ it ∈ items, protShape it) → ∀ it ∈ consTxt c items, protShape it := by
  intro items h it hit
  cases items with
  | nil =>
    simp only [consTxt] at hit
    rcases List.mem_singleton.1 hit with rfl
    trivial
  | cons a rest =>
    cases a with
    | txt s =>
      rcases List.mem_cons.1 hit with rfl | hm
      · trivial
      · exact h _ (List.mem_cons_of_mem _ hm)
    | pend r =>
      rcases List.mem_cons.1 hit with rfl | hm
      · trivial
      · exact h _ hm
    | done r =>
      rcases List.mem_cons.1 hit with rfl | hm
      · trivial
      · exact h _ hm

theorem txtSep_consTxt (c : Char) : ∀ (items : List PItem),
    TxtSep items → TxtSep (consTxt c items) := by
  intro items h
  cases items with
  | nil => trivial
  | cons a rest =>
    cases a with
    | txt s =>
      cases rest with
      | nil => trivial
      | cons b t => exact ⟨h.1, h.2⟩
    | pend r =>
      exact ⟨Or.inr rfl, h⟩
    | done r =>
      exact ⟨Or.inr rfl, h⟩

theorem txtSep_cons_of_not_txt {a : PItem} (ha : isTxt a = false) :
    ∀ (items : List PItem), TxtSep items → TxtSep (a :: items) := by
  intro items h
  cases items with
  | nil => trivial
  | cons b t => exact ⟨Or.inl ha, h⟩

theorem staged_of_protShape : ∀ (items : List PItem) (m n : Nat),
    (∀ it ∈ items, protShape it) → m ≤ n → StagedFrom m n items := by
  intro items
  induction items with
  | nil => intro m n _ _; trivial
  | cons a rest ih =>
    intro m n h hmn
    have ht := fun x hx => h x (List.mem_cons_of_mem _ hx)
    cases a with
    | txt s => exact ih m n ht hmn
    | pend r => exact ⟨hmn, ih m (n + 1) ht (by omega)⟩
    | done r => exact absurd (h _ (List.mem_cons_self _ _)) (by simp [protShape])

/-- The text of a segment, as it occurs inside the original text. -/
def itemPiece : PItem → List Char
  | .txt s => s
  | .pend r => r
  | .done r => r

theorem infix_append_right {α : Type} {u b : List α} (a : List α) (h : u <:+: b) :
    u <:+: a ++ b := by
  rcases h with ⟨s, t, rfl⟩
  exact ⟨a ++ s, t, by simp⟩

theorem piece_infix : ∀ (items : List PItem) (it : PItem), it ∈ items →
    itemPiece it <:+: doneText items := by
  intro items
  induction items with
  | nil => intro it hit; simp at hit
  | cons a rest ih =>
    intro it hit
    rcases List.mem_cons.1 hit with rfl | hm
    · cases it with
      | txt s => exact (List.prefix_append s (doneText rest)).isInfix
      | pend r => exact ⟨[':'], ':' :: doneText rest, by simp [itemPiece, doneText]⟩
      | done r => exact ⟨[':'], ':' :: doneText rest, by simp [itemPiece, doneText]⟩
    · cases a with
      | txt s => exact infix_append_right s (ih it hm)
      | pend r => exact infix_append_right (':' :: r ++ [':']) (ih it hm)
      | done r => exact infix_append_right (':' :: r ++ [':']) (ih it hm)

theorem protect_items_OK (items : List PItem) (cs : List Char)
    (hd : doneText items = cs) (hm : containsSub emarker cs = false)
    (hshape : ∀ it ∈ items, protShape it) : ∀ it ∈ items, itemOK it := by
  intro it hit
  have hpi : itemPiece it <:+: cs := hd ▸ piece_infix items it hit
  have hpm : containsSub emarker (itemPiece it) = false :=
    containsSub_mono_infix hm hpi emarker_ne_nil
  cases it with
  | txt s => exact hpm
  | pend r =>
    rcases hshape _ hit with ⟨h1, h2⟩
    exact ⟨h1, h2, hpm⟩
  | done r => exact absurd (hshape _ hit) (by simp [protShape])

/-- The protect scan produces a separated, shape-correct segment list whose
pending rendering is its first output, whose shortcode list is its second
output, and whose fully restored rendering is the original text. -/
theorem protect_rep : ∀ (fuel : Nat) (cs : List Char) (n : Nat), cs.length ≤ fuel →
    ∃ items : List PItem,
      protectFuel fuel cs n = (mixText n items, pendCodes items)
      ∧ doneText items = cs
      ∧ (∀ it ∈ items, protShape it)
      ∧ TxtSep items := by
  intro fuel
  induction fuel with
  | zero =>
    intro cs n hlen
    have : cs = [] := List.length_eq_zero.1 (by omega)
    subst this
    exact ⟨[], rfl, rfl, by simp, trivial⟩
  | succ f ih =>
    intro cs n hlen
    cases cs with
    | nil => exact ⟨[], rfl, rfl, by simp, trivial⟩
    | cons c rest =>
      cases hm : matchEmoji (c :: rest) with
      | some p =>
        obtain ⟨run, tail⟩ := p
        obtain ⟨hcs, hrun_ne, hrun_cls⟩ := matchEmoji_some hm
        have htail : tail.length ≤ f := by
          have := congrArg List.length hcs
          simp only [List.length_cons, List.length_append] at this hlen
          cases run with
          | nil => exact absurd rfl hrun_ne
          | cons a rs =>
            simp only [List.length_cons] at this
            omega
        obtain ⟨items', hpf', hdone', hshape', hsep'⟩ := ih tail (n + 1) htail
        refine ⟨PItem.pend run :: items', ?_, ?_, ?_, ?_⟩
        · simp only [protectFuel, hm]
          rw [hpf']
          rfl
        · show (':' :: run ++ [':']) ++ doneText items' = c :: rest
          rw [hdone', hcs]
          simp
        · intro it hit
          rcases List.mem_cons.1 hit with rfl | hmem
          · exact ⟨hrun_ne, hrun_cls⟩
          · exact hshape' it hmem
        · exact txtSep_cons_of_not_txt
            (show isTxt (PItem.pend run) = false from rfl) items' hsep'
      | none =>
        have hrest : rest.length ≤ f := by
          simp only [List.length_cons] at hlen; omega
        obtain ⟨items', hpf', hdone', hshape', hsep'⟩ := ih rest n hrest
        refine ⟨consTxt c items', ?_, ?_, ?_, ?_⟩
        · simp only [protectFuel, hm]
          rw [hpf', mixText_consTxt, pendCodes_consTxt]
        · rw [doneText_consTxt, hdone']
        · exact protShape_consTxt c items' hshape'
        · exact txtSep_consTxt c items' hsep'

/-- Round trip on character lists for marker-free texts. -/
theorem emoji_roundtrip_list (t : List Char) (h : containsSub emarker t = false) :
    restoreFrom (replaceSlackEmojisL t).1 (replaceSlackEmojisL t).2 0 = t := by
  obtain ⟨items, hpf, hdone, hshape, hsep⟩ := protect_rep t.length t 0 le_rfl
  unfold replaceSlackEmojisL
  rw [hpf]
  rw [restore_all (pendCodes items).length items 0 0 rfl
    (protect_items_OK items t hdone h hshape) hsep
    (staged_of_protShape items 0 0 hshape le_rfl) le_rfl]
  exact hdone

theorem string_mk_toList (s : String) : String.mk s.toList = s := rfl

/-- C1 (amended).  For every text in which the placeholder marker
EMOJISLACK does not occur as a substring, the emoji round trip is lossless:
restoring the output of `_replace_slack_emojis_for_translation` with its
recorded shortcode list reproduces the text exactly, for any number of
shortcodes, including none, adjacent and repeated ones.  (The restriction
is necessary: texts containing placeholder-shaped shortcodes break the
round trip, see the counterexample.) -/
theorem emoji_roundtrip_spec (text : String)
    (h : containsSub emarker text.toList = false) :
    restoreSlackEmojis (replaceSlackEmojisForTranslation text).1
      (replaceSlackEmojisForTranslation text).2 = text := by
  show String.mk (restoreFrom (String.mk (replaceSlackEmojisL text.toList).1).toList
    (((replaceSlackEmojisL text.toList).2.map String.mk).map String.toList) 0) = text
  have hmap : ((replaceSlackEmojisL text.toList).2.map String.mk).map String.toList
      = (replaceSlackEmojisL text.toList).2 := by
    rw [List.map_map]
    exact List.map_id'' (fun l => rfl) _
  rw [hmap]
  show String.mk (restoreFrom (replaceSlackEmojisL text.toList).1
    (replaceSlackEmojisL text.toList).2 0) = text
  rw [emoji_roundtrip_list text.toList h]
  exact string_mk_toList text

/-- Witness for C1 at a concrete instance: a text with adjacent and
repeated shortcodes round-trips. -/
theorem emoji_roundtrip_spec_witness :
    containsSub emarker (":tada: hi :+1::+1: x:y:z" : String).toList = false
    ∧ restoreSlackEmojis
        (replaceSlackEmojisForTranslation ":tada: hi :+1::+1: x:y:z").1
        (replaceSlackEmojisForTranslation ":tada: hi :+1::+1: x:y:z").2
      = ":tada: hi :+1::+1: x:y:z" :=
  ⟨by decide, emoji_roundtrip_spec ":tada: hi :+1::+1: x:y:z" (by decide)⟩

/-- C1 counterexample: the claim as stated — the round trip is lossless for
every input text — fails on the concrete text ":EMOJISLACK1::x:", whose
first shortcode collides with the placeholder of its second: the code
restores it to ":x::x:". -/
theorem emoji_roundtrip_counterexample :
    restoreSlackEmojis (replaceSlackEmojisForTranslation ":EMOJISLACK1::x:").1
        (replaceSlackEmojisForTranslation ":EMOJISLACK1::x:").2
      = ":x::x:"
    ∧ (":x::x:" : String) ≠ ":EMOJISLACK1::x:" := by
  constructor
  · rfl
  · decide

/-! ## Message resolution (`main.py` lines 199-455)

The Slack Web API is an external collaborator; the boundary is the inner
`_api_call` helper (which wraps `httpx` including the GET retry on
`invalid_arguments`), modelled as an oracle `api : ApiReq → ApiResp`.
Every issued request is recorded in a trace.  JSON message dicts become
`SlackMsg` records of the fields the code reads; the `next_cursor` string
uses `""` for "absent" (Python truthiness), matching the code's
`if not cursor` checks.  Python floats are modelled as rationals. -/

/-- The fields of a Slack message object that `_fetch_message` reads. -/
structure SlackMsg where
  ts : Option String
  text : Option String
  thread_ts : Option String
  reply_count : Nat
deriving DecidableEq

/-- The Web-API requests `main.py` can issue during resolution, identified
by method and payload.  `reactionsGet` models the `reactions.get` endpoint,
which the repository's tests expect but `main.py` never calls. -/
inductive ApiReq : Type
  | historyWindow (channel ts : String)
  | replies (channel anchor : String) (cursor : Option String)
  | historyPage (channel latest : String) (cursor : Option String)
  | reactionsGet (channel timestamp : String)
deriving DecidableEq

/-- The response fields the resolution code reads. -/
structure ApiResp where
  status : Nat
  ok : Bool
  messages : List SlackMsg
  next_cursor : String
  has_more : Bool
deriving DecidableEq

/-- Unsigned decimal value of a digit list, most significant first. -/
def digitsVal (ds : List Char) : Nat :=
  ds.foldl (fun a c => a * 10 + (c.toNat - '0'.toNat)) 0

/-- One decimal component: digits, or digits `.` digits (at most one part
may be empty). -/
def parseDecimalCore (l : List Char) : Option PyFloat :=
  match l.splitOn '.' with
  | [a] => if a ≠ [] ∧ a.all Char.isDigit then some ⟨digitsVal a, 0⟩ else none
  | [a, b] =>
    if (a ≠ [] ∨ b ≠ []) ∧ a.all Char.isDigit ∧ b.all Char.isDigit then
      some ⟨digitsVal a * 10 ^ b.length + digitsVal b, b.length⟩
    else none
  | _ => none

/-- Model of Python `float(string)` restricted to signed plain decimal
strings (the shape of Slack timestamps); exact decimals stand in for
binary floats.  Anything else raises `ValueError` (here: `none`). -/
def parseDecimal (s : String) : Option PyFloat :=
  match trimList s.toList with
  | '-' :: rest => (parseDecimalCore rest).map (fun f => ⟨-f.mantissa, f.scale⟩)
  | '+' :: rest => parseDecimalCore rest
  | l => parseDecimalCore l

/-- `|a - b| < 0.000001` on decimal values, cleared of denominators:
`|mₐ·10^sᵇ - mᵇ·10^sₐ| · 10^6 < 10^(sₐ+sᵇ)`. -/
def floatClose (a b : PyFloat) : Bool :=
  intAbs (a.mantissa * 10 ^ b.scale - b.mantissa * 10 ^ a.scale) * 10 ^ 6
    < 10 ^ (a.scale + b.scale)

/-- Python `x or default` for an optional string (None and "" are falsy). -/
def strOr (x : Option String) (d : String) : String :=
  match x with
  | none => d
  | some s => if s = "" then d else s

/-- Embedding of the inner `_ts_matches` closure (main.py 305-316): exact
string match after strip, else numeric comparison within 1e-6. -/
def tsMatches (ts_str : String) (ts_float : Option PyFloat) (candidate : Option String) : Bool :=
  match candidate with
  | none => false
  | some c =>
    let cand := pyTrim c
    if cand == ts_str then true
    else
      match ts_float with
      | none => false
      | some tf =>
        match parseDecimal cand with
        | some cf => floatClose cf tf
        | none => false

inductive ScanResult : Type
  | found (text postThreadTs : String)
  | rateLimited
  | error
  | notFound
deriving DecidableEq

/-- Embedding of the inner `_scan_thread_for_target` (main.py 318-360):
page through `conversations.replies` at the given anchor for at most
`max_pages` pages, following `next_cursor`; a 429 aborts with
`rate_limited`, any other failure with `error`; a message matching the
target timestamp yields `found` with its text and `thread_ts or anchor`.
The request trace is returned alongside.  (With the shipped `config`
module this routine is unreachable from `_fetch_message`, which raises
before calling it; the repository's tests reach it by patching `config`.) -/
def scanThreadForTarget (api : ApiReq → ApiResp) (channel_id ts_str : String)
    (ts_float : Option PyFloat) (anchor_ts : String) :
    Nat → Option String → ScanResult × List ApiReq
  | 0, _ => (.notFound, [])
  | max_pages + 1, cursor =>
    let req := ApiReq.replies channel_id anchor_ts cursor
    let r := api req
    if r.status == 429 then (.rateLimited, [req])
    else if r.status != 200 || !r.ok then (.error, [req])
    else
      match r.messages.find? (fun m => tsMatches ts_str ts_float m.ts) with
      | some m => (.found (pyTrim (m.text.getD "")) (strOr m.thread_ts anchor_ts), [req])
      | none =>
        if r.next_cursor == "" then (.notFound, [req])
        else
          let rec0 := scanThreadForTarget api channel_id ts_str ts_float anchor_ts
            max_pages (some r.next_cursor)
          (rec0.1, req :: rec0.2)

/-- Embedding of `_fetch_message` (main.py 199-455) against the actual
`config` module.  The body runs inside `try/except Exception: return
(None, None)`.  Step 1 queries the channel-history window
(`conversations.history` with oldest = latest = ts, limit 1); if it yields
a message, its stripped text is returned with the target ts as reply
anchor.  Otherwise execution reaches line 289, which reads
`config.SLACK_USER_TOKEN` — an attribute `config.py` never defines — so an
AttributeError is raised and caught by the enclosing handler, returning
(None, None).  The thread-replies scan and parent-discovery code below
line 289 is therefore dead with this configuration (it is embedded
separately as `scanThreadForTarget`).  The second component is the trace
of Web-API calls issued. -/
def fetchMessage (api : ApiReq → ApiResp) (cfg : Config) (channel_id ts : String)
    (thread_ts : Option String) : (Option String × Option String) × List ApiReq :=
  if cfg.SLACK_BOT_TOKEN = "" then ((none, none), [])
  else
    let req1 := ApiReq.historyWindow channel_id ts
    let r1 := api req1
    if r1.status == 200 && r1.ok then
      match r1.messages with
      | m :: _ => ((some (pyTrim (m.text.getD "")), some ts), [req1])
      | [] => ((none, none), [req1])
    else ((none, none), [req1])

theorem fetchMessage_trace_shape (api : ApiReq → ApiResp) (cfg : Config)
    (channel_id ts : String) (thread_ts : Option String) :
    (fetchMessage api cfg channel_id ts thread_ts).2 = []
    ∨ (fetchMessage api cfg channel_id ts thread_ts).2
        = [ApiReq.historyWindow channel_id ts] := by
  unfold fetchMessage
  by_cases hb : cfg.SLACK_BOT_TOKEN = ""
  · rw [if_pos hb]; exact Or.inl rfl
  · rw [if_neg hb]
    by_cases h1 : ((api (ApiReq.historyWindow channel_id ts)).status == 200
        && (api (ApiReq.historyWindow channel_id ts)).ok) = true
    · rw [if_pos h1]
      cases (api (ApiReq.historyWindow channel_id ts)).messages with
      | nil => exact Or.inr rfl
      | cons m rest => exact Or.inr rfl
    · rw [if_neg h1]; exact Or.inr rfl

theorem scanThread_trace_bound (api : ApiReq → ApiResp) (channel_id ts_str : String)
    (ts_float : Option PyFloat) (anchor_ts : String) :
    ∀ (pages : Nat) (cursor : Option String),
      (scanThreadForTarget api channel_id ts_str ts_float anchor_ts pages cursor).2.length
        ≤ pages := by
  intro pages
  induction pages with
  | zero => intro cursor; simp [scanThreadForTarget]
  | succ p ih =>
    intro cursor
    rw [scanThreadForTarget]
    simp only []
    split
    · simp
    · split
      · simp
      · split
        · simp
        · split
          · simp
          · simp only [List.length_cons]
            have := ih (some (api (ApiReq.replies channel_id anchor_ts cursor)).next_cursor)
            omega

/-- One page of the scan has exactly three outcomes: a rate-limited abort,
any other single-request terminal outcome, or a cursor-following recursion;
the first request of the page is the replies call at the given cursor. -/
theorem scanThread_step (api : ApiReq → ApiResp) (channel_id ts_str : String)
    (ts_float : Option PyFloat) (anchor_ts : String) (p : Nat) (cursor : Option String) :
    ((api (ApiReq.replies channel_id anchor_ts cursor)).status = 429
      ∧ scanThreadForTarget api channel_id ts_str ts_float anchor_ts (p + 1) cursor
          = (ScanResult.rateLimited, [ApiReq.replies channel_id anchor_ts cursor]))
    ∨ ((api (ApiReq.replies channel_id anchor_ts cursor)).status ≠ 429
      ∧ ∃ res, res ≠ ScanResult.rateLimited
        ∧ scanThreadForTarget api channel_id ts_str ts_float anchor_ts (p + 1) cursor
            = (res, [ApiReq.replies channel_id anchor_ts cursor]))
    ∨ ((api (ApiReq.replies channel_id anchor_ts cursor)).status ≠ 429
      ∧ scanThreadForTarget api channel_id ts_str ts_float anchor_ts (p + 1) cursor
          = ((scanThreadForTarget api channel_id ts_str ts_float anchor_ts p
                (some (api (ApiReq.replies channel_id anchor_ts cursor)).next_cursor)).1,
             ApiReq.replies channel_id anchor_ts cursor
               :: (scanThreadForTarget api channel_id ts_str ts_float anchor_ts p
                (some (api (ApiReq.replies channel_id anchor_ts cursor)).next_cursor)).2)) := by
  by_cases h1 : (api (ApiReq.replies channel_id anchor_ts cursor)).status = 429
  · left
    refine ⟨h1, ?_⟩
    rw [scanThreadForTarget]
    rw [if_pos (by simp [h1])]
  · have h1' : ((api (ApiReq.replies channel_id anchor_ts cursor)).status == 429) = false := by
      simpa using h1
    by_cases h2 : ((api (ApiReq.replies channel_id anchor_ts cursor)).status != 200
        || !(api (ApiReq.replies channel_id anchor_ts cursor)).ok) = true
    · right; left
      refine ⟨h1, ScanResult.error, by simp, ?_⟩
      rw [scanThreadForTarget]
      rw [if_neg (by simp [h1']), if_pos h2]
    · cases hf : (api (ApiReq.replies channel_id anchor_ts cursor)).messages.find?
          (fun m => tsMatches ts_str ts_float m.ts) with
      | some m =>
        right; left
        refine ⟨h1, ScanResult.found (pyTrim (m.text.getD ""))
          (strOr m.thread_ts anchor_ts), by simp, ?_⟩
        rw [scanThreadForTarget]
        rw [if_neg (by simp [h1']), if_neg h2]
        rw [hf]
      | none =>
        by_cases h3 : ((api (ApiReq.replies channel_id anchor_ts cursor)).next_cursor
            == "") = true
        · right; left
          refine ⟨h1, ScanResult.notFound, by simp, ?_⟩
          rw [scanThreadForTarget]
          rw [if_neg (by simp [h1']), if_neg h2]
          rw [hf]
          rw [if_pos h3]
        · right; right
          refine ⟨h1, ?_⟩
          rw [scanThreadForTarget]
          rw [if_neg (by simp [h1']), if_neg h2]
          rw [hf]
          rw [if_neg h3]

theorem scanThread_429_aborts (api : ApiReq → ApiResp) (channel_id ts_str : String)
    (ts_float : Option PyFloat) (anchor_ts : String) :
    ∀ (pages : Nat) (cursor : Option String) (spre spost : List ApiReq) (sreq : ApiReq),
      (scanThreadForTarget api channel_id ts_str ts_float anchor_ts pages cursor).2
        = spre ++ sreq :: spost →
      (api sreq).status = 429 →
      spost = []
      ∧ (scanThreadForTarget api channel_id ts_str ts_float anchor_ts pages cursor).1
          = ScanResult.rateLimited := by
  intro pages
  induction pages with
  | zero =>
    intro cursor spre spost sreq htr _
    simp [scanThreadForTarget] at htr
  | succ p ih =>
    intro cursor spre spost sreq htr h429
    rcases scanThread_step api channel_id ts_str ts_float anchor_ts p cursor with
      ⟨h1, heq⟩ | ⟨h1, res, hres, heq⟩ | ⟨h1, heq⟩
    · rw [heq] at htr ⊢
      cases spre with
      | nil =>
        simp only [List.nil_append, List.cons.injEq] at htr
        exact ⟨htr.2.symm, rfl⟩
      | cons a as =>
        simp only [List.cons_append, List.cons.injEq] at htr
        exact absurd htr.2 (by simp)
    · rw [heq] at htr ⊢
      cases spre with
      | nil =>
        simp only [List.nil_append, List.cons.injEq] at htr
        exact absurd (htr.1 ▸ h429) h1
      | cons a as =>
        simp only [List.cons_append, List.cons.injEq] at htr
        exact absurd htr.2 (by simp)
    · rw [heq] at htr ⊢
      cases spre with
      | nil =>
        simp only [List.nil_append, List.cons.injEq] at htr
        exact absurd (htr.1 ▸ h429) h1
      | cons a as =>
        simp only [List.cons_append, List.cons.injEq] at htr
        obtain ⟨-, htr2⟩ := htr
        exact ih _ as spost sreq htr2 h429

theorem singleton_eq_append_cons {α : Type} {pre post : List α} {x r : α}
    (h : [x] = pre ++ r :: post) : pre = [] ∧ r = x ∧ post = [] := by
  cases pre with
  | nil =>
    simp only [List.nil_append, List.cons.injEq] at h
    exact ⟨rfl, h.1.symm, h.2.symm⟩
  | cons a as =>
    simp only [List.cons_append, List.cons.injEq] at h
    exact absurd h.2.symm (by simp)

/-- C5.  During message resolution, every remote call that returns HTTP 429
causes an immediate abort returning (None, None): if a 429-answered request
appears anywhere in the `_fetch_message` trace, it is the last request
issued and the result is (None, None) — this covers the initial
channel-history window lookup, which with the shipped config module is the
only remote call `_fetch_message` can make (line 289 raises AttributeError
on the undefined `config.SLACK_USER_TOKEN` before any further call, and the
catch-all handler returns (None, None)).  The thread-replies scan routine
likewise aborts with `rate_limited` at the first 429-answered page, issuing
nothing further. -/
theorem rate_limit_aborts_resolution (api : ApiReq → ApiResp) (cfg : Config)
    (channel_id ts : String) (thread_ts : Option String)
    (ts_str : String) (ts_float : Option PyFloat) (anchor_ts : String)
    (pages : Nat) (cursor : Option String)
    (pre post spre spost : List ApiReq) (req sreq : ApiReq) :
    ((fetchMessage api cfg channel_id ts thread_ts).2 = pre ++ req :: post →
      (api req).status = 429 →
      post = [] ∧ (fetchMessage api cfg channel_id ts thread_ts).1 = (none, none))
    ∧ ((scanThreadForTarget api channel_id ts_str ts_float anchor_ts pages cursor).2
          = spre ++ sreq :: spost →
      (api sreq).status = 429 →
      spost = []
      ∧ (scanThreadForTarget api channel_id ts_str ts_float anchor_ts pages cursor).1
          = ScanResult.rateLimited) := by
  constructor
  · intro htr h429
    rcases fetchMessage_trace_shape api cfg channel_id ts thread_ts with hsh | hsh
    · rw [hsh] at htr
      exact absurd htr (by cases pre <;> simp)
    · rw [hsh] at htr
      obtain ⟨hpre, hreq, hpost⟩ := singleton_eq_append_cons htr
      subst hreq
      refine ⟨hpost, ?_⟩
      by_cases hb : cfg.SLACK_BOT_TOKEN = ""
      · rw [fetchMessage, if_pos hb] at hsh
        exact absurd hsh (by simp)
      · rw [fetchMessage, if_neg hb]
        rw [if_neg (by simp [h429])]
  · intro htr h429
    exact scanThread_429_aborts api channel_id ts_str ts_float anchor_ts pages cursor
      spre spost sreq htr h429

/-- Test configuration used by concrete witnesses (arbitrary values for all
attributes `config.py` defines; the phrase lists are its env defaults). -/
def cfgTest : Config :=
  ⟨"s", "xoxb", "k", [], 300, "all", "[translate]", "de",
    ["translation of the following", "assist us with a translation"]⟩

/-- An oracle answering every request with HTTP 429. -/
def api429 : ApiReq → ApiResp := fun _ => ⟨429, false, [], "", false⟩

/-- Witness for C5: with an all-429 oracle, the history-window request is
the last (and only) request and resolution returns (None, None); the scan
aborts rate-limited after its first page. -/
theorem rate_limit_aborts_resolution_witness :
    (fetchMessage api429 cfgTest "C1" "1.0" none).2
        = [] ++ ApiReq.historyWindow "C1" "1.0" :: []
    ∧ (api429 (ApiReq.historyWindow "C1" "1.0")).status = 429
    ∧ (fetchMessage api429 cfgTest "C1" "1.0" none).1 = (none, none)
    ∧ (scanThreadForTarget api429 "C1" "1.0" none "1.0" 4 none).2
        = [] ++ ApiReq.replies "C1" "1.0" none :: []
    ∧ (scanThreadForTarget api429 "C1" "1.0" none "1.0" 4 none).1
        = ScanResult.rateLimited := by
  have h1 : (fetchMessage api429 cfgTest "C1" "1.0" none).2
      = [] ++ ApiReq.historyWindow "C1" "1.0" :: [] := by decide
  have h2 : (api429 (ApiReq.historyWindow "C1" "1.0")).status = 429 := rfl
  have h4 : (scanThreadForTarget api429 "C1" "1.0" none "1.0" 4 none).2
      = [] ++ ApiReq.replies "C1" "1.0" none :: [] := by decide
  have h5 := rate_limit_aborts_resolution api429 cfgTest "C1" "1.0" none "1.0" none
    "1.0" 4 none [] [] [] [] (ApiReq.historyWindow "C1" "1.0")
    (ApiReq.replies "C1" "1.0" none)
  exact ⟨h1, h2, (h5.1 h1 h2).2, h4, (h5.2 h4 rfl).2⟩

/-- C9 (amended).  With the shipped config module the thread-replies scan
of step 2 never runs: `_fetch_message` issues at most the initial
channel-history window request (never a `conversations.replies` request,
never a pagination cursor), returns the found message's stripped text with
the target timestamp as reply anchor when step 1 succeeds, and (None, None)
otherwise — the AttributeError on the undefined `config.SLACK_USER_TOKEN`
aborts it before step 2.  The scan routine itself, reachable only when
`config` is patched as in the tests, issues at most `max_pages` replies
requests — and `_fetch_message`'s direct-anchor invocation passes
`max_pages = 1`, so even then no pagination cursor would be followed at the
target anchor. -/
theorem replies_scan_amended (api : ApiReq → ApiResp) (cfg : Config)
    (channel_id ts : String) (thread_ts : Option String)
    (ts_str : String) (ts_float : Option PyFloat) (anchor_ts : String)
    (pages : Nat) (cursor : Option String) :
    ((fetchMessage api cfg channel_id ts thread_ts).2 = []
      ∨ (fetchMessage api cfg channel_id ts thread_ts).2
          = [ApiReq.historyWindow channel_id ts])
    ∧ ((fetchMessage api cfg channel_id ts thread_ts).1 = (none, none)
      ∨ ∃ m rest, (api (ApiReq.historyWindow channel_id ts)).messages = m :: rest
          ∧ (fetchMessage api cfg channel_id ts thread_ts).1
              = (some (pyTrim (m.text.getD "")), some ts))
    ∧ (scanThreadForTarget api channel_id ts_str ts_float anchor_ts pages cursor).2.length
        ≤ pages := by
  refine ⟨fetchMessage_trace_shape api cfg channel_id ts thread_ts, ?_,
    scanThread_trace_bound api channel_id ts_str ts_float anchor_ts pages cursor⟩
  rw [fetchMessage]
  by_cases hb : cfg.SLACK_BOT_TOKEN = ""
  · rw [if_pos hb]; exact Or.inl rfl
  · rw [if_neg hb]
    by_cases h1 : ((api (ApiReq.historyWindow channel_id ts)).status == 200
        && (api (ApiReq.historyWindow channel_id ts)).ok) = true
    · rw [if_pos h1]
      cases hmsg : (api (ApiReq.historyWindow channel_id ts)).messages with
      | nil => exact Or.inl rfl
      | cons m rest => exact Or.inr ⟨m, rest, rfl, rfl⟩
    · rw [if_neg h1]; exact Or.inl rfl

/-- An oracle under which the target "5.0" is a thread reply that a
cursor-following replies scan would find on its second page, while the
history window is empty. -/
def apiDeepReply : ApiReq → ApiResp := fun req =>
  match req with
  | .historyWindow _ _ => ⟨200, true, [], "", false⟩
  | .replies _ _ none => ⟨200, true, [⟨some "9.9", some "other", none, 0⟩], "c1", true⟩
  | .replies _ _ (some _) =>
    ⟨200, true, [⟨some "5.0", some "deep reply", some "4.0", 0⟩], "", false⟩
  | .historyPage _ _ _ => ⟨200, true, [], "", false⟩
  | .reactionsGet _ _ => ⟨200, true, [], "", false⟩

/-- C9 counterexample: the claim — the resolver scans up to 4 paginated
pages of thread replies anchored at the target before falling through —
fails on this concrete oracle: the code issues only the history-window
request and resolves to (None, None), although a 4-page cursor-following
scan of the same oracle finds the message ("deep reply", thread root
"4.0") on page 2; moreover the code's own direct-scan invocation would
pass max_pages = 1, which also yields not-found here. -/
theorem replies_scan_counterexample :
    (fetchMessage apiDeepReply cfgTest "C1" "5.0" none).1 = (none, none)
    ∧ (fetchMessage apiDeepReply cfgTest "C1" "5.0" none).2
        = [ApiReq.historyWindow "C1" "5.0"]
    ∧ (scanThreadForTarget apiDeepReply "C1" "5.0" (parseDecimal "5.0") "5.0" 4 none).1
        = ScanResult.found "deep reply" "4.0"
    ∧ (scanThreadForTarget apiDeepReply "C1" "5.0" (parseDecimal "5.0") "5.0" 1 none).1
        = ScanResult.notFound := by
  refine ⟨rfl, rfl, by decide, by decide⟩


/-! ## JSON values and the events endpoint (`main.py` lines 494-673)

The endpoint is embedded as a function of the module state (dedup ledger
and cached bot user id), the raw request (body and the two Slack headers)
and a `World` of external capabilities (JSON decoding, HMAC, the clock,
the Slack Web API, DeepL, `chat.postMessage`, `auth.test`).  It returns
the HTTP response — or the uncaught Python exception — together with the
updated module state and the trace of external actions (`Eff`).  An
uncaught exception aborts the request, but module-state mutations made
before it persist, so the state is returned in every case. -/

/-- JSON values as decoded by `json.loads`.  Numbers are restricted to
integers (every number a handler path inspects is an integer count). -/
inductive J : Type
  | null
  | bool (b : Bool)
  | num (n : Int)
  | str (s : String)
  | arr (elems : List J)
  | obj (fields : List (String × J))

/-- Python exceptions the embedded paths can raise. -/
inductive PyErr : Type
  | attributeError
  | typeError
deriving DecidableEq

/-- Dictionary field lookup, first binding wins (`json.loads` keeps a
single binding per key). -/
def oGet (fields : List (String × J)) (key : String) : Option J :=
  (fields.find? (fun p => p.1 == key)).map (fun p => p.2)

/-- Python `dict.get` on an arbitrary value: raises `AttributeError`
unless the value is an object. -/
def jGet (v : J) (key : String) : Except PyErr (Option J) :=
  match v with
  | .obj fields => .ok (oGet fields key)
  | _ => .error .attributeError

/-- Python truthiness of a JSON value. -/
def jTruthy (v : J) : Bool :=
  match v with
  | .null => false
  | .bool b => b
  | .num n => !(n == 0)
  | .str s => !(s == "")
  | .arr l => !l.isEmpty
  | .obj l => !l.isEmpty

/-- Truthiness of a `dict.get` result (an absent key gives `None`). -/
def jTruthyOpt (x : Option J) : Bool :=
  match x with
  | none => false
  | some v => jTruthy v

/-- Python `x is not None` for a `dict.get` result: the key is present
with a non-null value. -/
def jIsNotNone (x : Option J) : Bool :=
  match x with
  | none => false
  | some .null => false
  | some _ => true

/-- Python `x == s` for a `dict.get` result and a string literal (a
missing key or a non-string value compares unequal). -/
def jEqStr (x : Option J) (s : String) : Bool :=
  match x with
  | some (.str t) => t == s
  | _ => false

/-- Python `x or \x7b\x7d` for a `dict.get` result. -/
def jOrEmptyObj (x : Option J) : J :=
  match x with
  | some v => if jTruthy v then v else .obj []
  | none => .obj []

/-- Python `str(x)` on a JSON scalar; containers get stand-in renderings
(no handler path applies `str` to a container). -/
def pyStr : J → String
  | .null => "None"
  | .bool b => if b then "True" else "False"
  | .num n =>
    if n < 0 then "-" ++ String.mk (digChars (-n).toNat)
    else String.mk (digChars n.toNat)
  | .str s => s
  | .arr _ => "<arr>"
  | .obj _ => "<obj>"

/-- Python `(x or "")` immediately followed by a string method such as
`.strip()`: a falsy value yields `""`, a truthy string yields itself, and
a truthy non-string raises `AttributeError` at the method call. -/
def asStrOr (x : Option J) : Except PyErr String :=
  match x with
  | none => .ok ""
  | some v =>
    if jTruthy v then
      match v with
      | .str s => .ok s
      | _ => .error .attributeError
    else .ok ""

/-- String content of a channel / timestamp identifier field, `none` when
the field is absent or falsy.  Modelling cut: the handler only ever
receives these identifiers as JSON strings, so a truthy non-string
identifier is folded into the same skip branch as an absent one. -/
def jStrField (x : Option J) : Option String :=
  match x with
  | some (.str s) => if s = "" then none else some s
  | _ => none

/-- Python `int(x)` on a JSON value (reaction counts); `none` models
`TypeError` / `ValueError`. -/
def pyIntOf (v : J) : Option Int :=
  match v with
  | .num n => some n
  | .bool b => some (if b then 1 else 0)
  | .str s => pyInt s
  | _ => none

/-- Embedding of `_normalize_reaction_name` (main.py 150-152): strip,
lowercase, replace `-` with `_`. -/
def normalizeReactionName (name : String) : String :=
  String.mk (replaceAll (lowerList (trimList name.toList)) ['-'] ['_'])

/-- Loop of `_message_has_reaction` over the `reactions` array: entries
whose normalized name differs from `expected` are skipped; for a matching
name, `int(reaction.get("count", 1) or 0)` — defaulting to `1` when the
key is absent or parsing raises — decides via `count > 0`. -/
def reactionsLoop (expected : String) : List J → Except PyErr Bool
  | [] => .ok false
  | r :: rest =>
    match jGet r "name" with
    | .error e => .error e
    | .ok nameOpt =>
      let nameStr :=
        match nameOpt with
        | some v => if jTruthy v then pyStr v else ""
        | none => ""
      if normalizeReactionName nameStr ≠ expected then reactionsLoop expected rest
      else
        match jGet r "count" with
        | .error e => .error e
        | .ok cntOpt =>
          let count : Int :=
            match cntOpt with
            | none => 1
            | some v => if jTruthy v then (pyIntOf v).getD 1 else 0
          if count > 0 then .ok true else reactionsLoop expected rest

/-- Python `(x or [])` followed by iteration: a falsy value iterates as
the empty list; a truthy array iterates its elements; a truthy non-array
raises (in Python while iterating or while dereferencing the first
entry — collapsed here to `typeError`). -/
def jIterList (x : Option J) : Except PyErr (List J) :=
  match x with
  | none => .ok []
  | some v =>
    if jTruthy v then
      match v with
      | .arr l => .ok l
      | _ => .error .typeError
    else .ok []

/-- Embedding of `_message_has_reaction` (main.py 155-168). -/
def messageHasReaction (message : J) (reaction_name : String) : Except PyErr Bool :=
  match jGet message "reactions" with
  | .error e => .error e
  | .ok r =>
    match jIterList r with
    | .error e => .error e
    | .ok l => reactionsLoop (normalizeReactionName reaction_name) l

/-- Embedding of `_extract_content_to_translate` (main.py 171-186).
`if not text or not config.EXTRACT_PHRASES_LIST:` short-circuits on empty
text, returning it unchanged; for nonempty text the condition evaluates
`config.EXTRACT_PHRASES_LIST`, an attribute `config.py` never defines, so
the call raises `AttributeError`. -/
def extractContentToTranslate (text : String) : Except PyErr String :=
  if text = "" then .ok text else .error .attributeError

/-- Externally visible actions of one request: Slack Web-API calls issued
during message resolution, the `auth.test` lookup, DeepL translation
requests (`translate_en_to_de`), and `chat.postMessage` replies. -/
inductive Eff : Type
  | authTest
  | apiCall (req : ApiReq)
  | translateCall (text : String)
  | postCall (channel thread_ts text : String)
deriving DecidableEq

/-- Mutable module state of `main.py`: the `_processed` dedup ledger and
the cached `_bot_user_id`. -/
structure HState where
  processed : List (String × String)
  botUserId : Option String
deriving DecidableEq

/-- External capabilities of one request: JSON decoding (`none` models a
`json.loads` failure), the HMAC hex digest, the wall clock, the Slack Web
API, DeepL (`none` models a falsy `translate_en_to_de` result), the
`chat.postMessage` outcome, and the `auth.test` user id (`none` models
failure). -/
structure World where
  decode : String → Option J
  hmacHex : String → String → String
  now : PyFloat
  api : ApiReq → ApiResp
  translate : String → Option String
  postOk : Bool
  authTestUser : Option String

/-- HTTP responses of the endpoint. -/
inductive HResp : Type
  | ok200
  | bad400
  | forbidden403
  | challengeResp (value : J)

/-- Outcome of one request: the response or the uncaught exception, the
updated module state, and the trace of external actions. -/
structure HOut where
  resp : Except PyErr HResp
  state : HState
  effs : List Eff

/-- Embedding of `_get_bot_user_id` (main.py 100-118): `auth.test`,
cached on success. -/
def getBotUserId (w : World) (cfg : Config) (st : HState) :
    Option String × HState × List Eff :=
  match st.botUserId with
  | some b => (some b, st, [])
  | none =>
    if cfg.SLACK_BOT_TOKEN = "" then (none, st, [])
    else
      match w.authTestUser with
      | some uid => (some uid, ⟨st.processed, some uid⟩, [.authTest])
      | none => (none, st, [.authTest])

/-- Embedding of `_should_translate_and_strip` (main.py 121-147). -/
def shouldTranslateAndStrip (w : World) (cfg : Config) (st : HState)
    (text : String) : Option String × HState × List Eff :=
  if cfg.TRANSLATE_TRIGGER = "all" then (some text, st, [])
  else if cfg.TRANSLATE_TRIGGER = "prefix" then
    if cfg.TRANSLATE_PREFIX_VALUE = ""
        ∨ ¬ (cfg.TRANSLATE_PREFIX_VALUE.toList.isPrefixOf text.toList) then
      (none, st, [])
    else
      let stripped := pyTrim (String.mk (text.toList.drop cfg.TRANSLATE_PREFIX_VALUE.toList.length))
      ((if stripped = "" then none else some stripped), st, [])
  else if cfg.TRANSLATE_TRIGGER = "mention" then
    match getBotUserId w cfg st with
    | (none, st2, effs) => (none, st2, effs)
    | (some bid, st2, effs) =>
      let mention := "<@" ++ bid ++ ">"
      if ¬ (strContains text mention = true) then (none, st2, effs)
      else
        let stripped := String.mk (collapseSpaces (trimList (replaceFirst mention.toList [' '] text.toList)))
        ((if stripped = "" then none else some stripped), st2, effs)
  else (some text, st, [])

/-- Embedding of `_split_headline_body` (main.py 38-51). -/
def splitHeadlineBody (text : String) : String × String :=
  let t := pyTrim text
  if t = "" then ("", "")
  else
    match t.toList.dropWhile (fun c => !(c == '\n')) with
    | [] => (t, "")
    | _ :: rest =>
      (pyTrim (String.mk (t.toList.takeWhile (fun c => !(c == '\n')))),
       pyTrim (String.mk rest))

/-- Embedding of `_translate_headline_and_body` (main.py 54-75): protect
emoji shortcodes, split into headline and body, translate each nonempty
part (`translate_en_to_de` is `w.translate`; a falsy result keeps the
original part), rejoin with a newline, restore the shortcodes. -/
def translateHeadlineAndBody (w : World) (text : String) :
    Option String × List Eff :=
  if text = "" ∨ pyTrim text = "" then (none, [])
  else
    let pr := replaceSlackEmojisForTranslation text
    let hb := splitHeadlineBody pr.1
    let hpart : List String × List Eff :=
      if hb.1 = "" then ([], [])
      else
        ((match w.translate hb.1 with
          | some t => if t = "" then [hb.1] else [t]
          | none => [hb.1]), [.translateCall hb.1])
    let bpart : List String × List Eff :=
      if hb.2 = "" then ([], [])
      else
        ((match w.translate hb.2 with
          | some t => if t = "" then [hb.2] else [t]
          | none => [hb.2]), [.translateCall hb.2])
    match hpart.1 ++ bpart.1 with
    | [] => (none, hpart.2 ++ bpart.2)
    | parts => (some (restoreSlackEmojis (String.intercalate "\n" parts) pr.2),
                hpart.2 ++ bpart.2)

/-- Embedding of `_post_thread_reply` (main.py 458-491): without a bot
token nothing is sent; otherwise the `chat.postMessage` call is issued
and the oracle decides success. -/
def postThreadReply (w : World) (cfg : Config) (channel_id thread_ts text : String) :
    Bool × List Eff :=
  if cfg.SLACK_BOT_TOKEN = "" then (false, [])
  else (w.postOk, [.postCall channel_id thread_ts text])

/-- Common tail of the three translation paths (main.py 561-573, 606-627
and 660-671): preamble extraction, translation, reply posting at the
given anchor.  Factored out with the reply anchor precomputed — the
anchor expressions are pure by the time this tail runs, so computing them
up front is observation-equivalent. -/
def extractTranslatePost (w : World) (cfg : Config)
    (channel_id reply_ts text1 : String) : Except PyErr HResp × List Eff :=
  match extractContentToTranslate text1 with
  | .error e => (.error e, [])
  | .ok text2 =>
    if text2 = "" then (.ok .ok200, [])
    else
      let tr := translateHeadlineAndBody w text2
      match tr.1 with
      | none => (.ok .ok200, tr.2)
      | some translated =>
        if translated = "" then (.ok .ok200, tr.2)
        else
          let post := postThreadReply w cfg channel_id reply_ts translated
          (.ok .ok200, tr.2 ++ post.2)

/-- Tail of the `reaction_added` branch after the dedup mark (main.py
555-573): resolve the message, then extract, translate and post. -/
def slackEventsReactionTail (w : World) (cfg : Config) (st2 : HState)
    (channel_id message_ts : String) (thread_ts : Option String) : HOut :=
  let fm := fetchMessage w.api cfg channel_id message_ts thread_ts
  let effs1 := fm.2.map Eff.apiCall
  match fm.1.1 with
  | none => ⟨.ok .ok200, st2, effs1⟩
  | some text =>
    if text = "" then ⟨.ok .ok200, st2, effs1⟩
    else
      let reply_ts :=
        match fm.1.2 with
        | some r => if r = "" then message_ts else r
        | none => message_ts
      let etp := extractTranslatePost w cfg channel_id reply_ts text
      ⟨etp.1, st2, effs1 ++ etp.2⟩

/-- Gates of the `reaction_added` branch before the dedup mark (main.py
532-552): trigger mode, reaction name, item type, channel and timestamp,
channel allowlist.  These read only the configuration and the event
payload — never the module state — so they are factored out; `.error r`
is the early response (OK acknowledgement or uncaught exception) and
`.ok (channel_id, message_ts)` falls through to the dedup mark. -/
def reactionGate (cfg : Config) (ev : List (String × J)) :
    Except (Except PyErr HResp) (String × String) :=
  if ¬ (cfg.TRANSLATE_TRIGGER = "reaction") then .error (.ok .ok200)
  else
    match asStrOr (oGet ev "reaction") with
    | .error e => .error (.error e)
    | .ok rawReaction =>
      if ¬ (normalizeReactionName rawReaction
            = normalizeReactionName cfg.REACTION_TRIGGER_EMOJI) then
        .error (.ok .ok200)
      else
        match jOrEmptyObj (oGet ev "item") with
        | .obj item =>
          if ¬ (jEqStr (oGet item "type") "message" = true) then .error (.ok .ok200)
          else
            match jStrField (oGet item "channel"), jStrField (oGet item "ts") with
            | some channel_id, some message_ts =>
              if !cfg.CHANNEL_IDS_LIST.isEmpty
                  && !(cfg.CHANNEL_IDS_LIST.contains channel_id) then
                .error (.ok .ok200)
              else .ok (channel_id, message_ts)
            | _, _ => .error (.ok .ok200)
        | _ => .error (.error .attributeError)

/-- The `item.thread_ts` field read by the `reaction_added` branch. -/
def reactionThreadTs (ev : List (String × J)) : Option String :=
  match jOrEmptyObj (oGet ev "item") with
  | .obj item => jStrField (oGet item "thread_ts")
  | _ => none

/-- Embedding of the `reaction_added` branch (main.py 532-574): the
payload gates, then the dedup mark, then resolution and translation. -/
def slackEventsReaction (w : World) (cfg : Config) (st : HState)
    (ev : List (String × J)) : HOut :=
  match reactionGate cfg ev with
  | .error r => ⟨r, st, []⟩
  | .ok (channel_id, message_ts) =>
    let ap := alreadyProcessed st.processed (channel_id, message_ts)
    if ap.1 then ⟨.ok .ok200, ⟨ap.2, st.botUserId⟩, []⟩
    else
      slackEventsReactionTail w cfg ⟨ap.2, st.botUserId⟩
        channel_id message_ts (reactionThreadTs ev)

/-- Tail of the `message_changed` branch after the trigger-reaction check
(main.py 601-627): edit-marker dedup, then extract, translate and post. -/
def slackEventsEditTail (w : World) (cfg : Config) (st : HState)
    (ev em : List (String × J)) (previousJ : J)
    (channel_id message_ts : String) : HOut :=
  match jGet (jOrEmptyObj (oGet em "edited")) "ts" with
  | .error e => ⟨.error e, st, []⟩
  | .ok eMetaTs =>
    let markerVal : J :=
      if jTruthyOpt eMetaTs then eMetaTs.getD .null
      else if jTruthyOpt (oGet ev "event_ts") then
        (oGet ev "event_ts").getD .null
      else .str ""
    let edit_marker := pyTrim (pyStr markerVal)
    let dd : Bool × List (String × String) :=
      if edit_marker = "" then (false, st.processed)
      else alreadyProcessed st.processed
        (channel_id, message_ts ++ ":edit:" ++ edit_marker)
    let st2 : HState := ⟨dd.2, st.botUserId⟩
    if dd.1 then ⟨.ok .ok200, st2, []⟩
    else
      match asStrOr (oGet em "text") with
      | .error e => ⟨.error e, st2, []⟩
      | .ok textRaw =>
        let text := pyTrim textRaw
        if text = "" then ⟨.ok .ok200, st2, []⟩
        else
          match (if jTruthyOpt (oGet em "thread_ts") then
                   Except.ok (oGet em "thread_ts")
                 else jGet previousJ "thread_ts") with
          | .error e => ⟨.error e, st2, []⟩
          | .ok rtt =>
            let reply_ts :=
              match rtt with
              | some v => if jTruthy v then pyStr v else message_ts
              | none => message_ts
            let etp := extractTranslatePost w cfg channel_id reply_ts text
            ⟨etp.1, st2, etp.2⟩

/-- Embedding of the `message_changed` branch (main.py 576-628).  The
branch consults only the event payload for the trigger reaction
(`message.reactions` when present-and-non-null, else
`previous_message.reactions`); it never calls `reactions.get`. -/
def slackEventsEdit (w : World) (cfg : Config) (st : HState)
    (ev : List (String × J)) : HOut :=
  let editedJ := jOrEmptyObj (oGet ev "message")
  let previousJ := jOrEmptyObj (oGet ev "previous_message")
  match editedJ with
  | .obj em =>
    match (if jTruthyOpt (oGet em "ts") then Except.ok (oGet em "ts")
           else jGet previousJ "ts") with
    | .error e => ⟨.error e, st, []⟩
    | .ok mtsOpt =>
      match jStrField (oGet ev "channel"), jStrField mtsOpt with
      | some channel_id, some message_ts =>
        if !cfg.CHANNEL_IDS_LIST.isEmpty
            && !(cfg.CHANNEL_IDS_LIST.contains channel_id) then
          ⟨.ok .ok200, st, []⟩
        else if jTruthyOpt (oGet em "bot_id") then ⟨.ok .ok200, st, []⟩
        else
          match jGet previousJ "bot_id" with
          | .error e => ⟨.error e, st, []⟩
          | .ok botP =>
            if jTruthyOpt botP then ⟨.ok .ok200, st, []⟩
            else
              let rsource := if jIsNotNone (oGet em "reactions") then editedJ else previousJ
              match messageHasReaction rsource cfg.REACTION_TRIGGER_EMOJI with
              | .error e => ⟨.error e, st, []⟩
              | .ok has =>
                if ¬ (has = true) then ⟨.ok .ok200, st, []⟩
                else slackEventsEditTail w cfg st ev em previousJ channel_id message_ts
      | _, _ => ⟨.ok .ok200, st, []⟩
  | _ => ⟨.error .attributeError, st, []⟩

/-- Tail of the plain-message branch after the dedup mark (main.py
655-671): trigger matching, then extract, translate and post. -/
def slackEventsMessageTail (w : World) (cfg : Config) (st2 : HState)
    (channel_id ts text : String) : HOut :=
  match shouldTranslateAndStrip w cfg st2 text with
  | (none, st3, effsA) => ⟨.ok .ok200, st3, effsA⟩
  | (some t2, st3, effsA) =>
    let etp := extractTranslatePost w cfg channel_id ts t2
    ⟨etp.1, st3, effsA ++ etp.2⟩

/-- Gates of the plain-message branch before the dedup mark (main.py
637-655): channel, timestamp, stripped text, channel allowlist.  These
read only the configuration and the event payload, so they are factored
out like `reactionGate`; `.ok` carries channel, timestamp and the
stripped text into the dedup mark. -/
def messageGate (cfg : Config) (ev : List (String × J)) :
    Except (Except PyErr HResp) (String × String × String) :=
  match asStrOr (oGet ev "text") with
  | .error e => .error (.error e)
  | .ok textRaw =>
    let text := pyTrim textRaw
    match jStrField (oGet ev "channel"), jStrField (oGet ev "ts") with
    | some channel_id, some ts =>
      if text = "" then .error (.ok .ok200)
      else if !cfg.CHANNEL_IDS_LIST.isEmpty
          && !(cfg.CHANNEL_IDS_LIST.contains channel_id) then
        .error (.ok .ok200)
      else .ok (channel_id, ts, text)
    | _, _ => .error (.ok .ok200)

/-- Embedding of the plain-message branch (main.py 637-673): the payload
gates, then the dedup mark, then trigger matching and translation. -/
def slackEventsMessage (w : World) (cfg : Config) (st : HState)
    (ev : List (String × J)) : HOut :=
  match messageGate cfg ev with
  | .error r => ⟨r, st, []⟩
  | .ok (channel_id, ts, text) =>
    let ap := alreadyProcessed st.processed (channel_id, ts)
    if ap.1 then ⟨.ok .ok200, ⟨ap.2, st.botUserId⟩, []⟩
    else slackEventsMessageTail w cfg ⟨ap.2, st.botUserId⟩ channel_id ts text

/-- Event router of `slack_events` (main.py 531-649): `reaction_added`
first, then the `message_changed`-in-reaction-mode branch, then the
plain-message gates. -/
def slackEventsEvent (w : World) (cfg : Config) (st : HState)
    (ev : List (String × J)) : HOut :=
  if jEqStr (oGet ev "type") "reaction_added" then
    slackEventsReaction w cfg st ev
  else if jEqStr (oGet ev "type") "message"
      && jEqStr (oGet ev "subtype") "message_changed"
      && (cfg.TRANSLATE_TRIGGER == "reaction") then
    slackEventsEdit w cfg st ev
  else if ¬ (jEqStr (oGet ev "type") "message" = true) then ⟨.ok .ok200, st, []⟩
  else if cfg.TRANSLATE_TRIGGER = "reaction" then ⟨.ok .ok200, st, []⟩
  else if jTruthyOpt (oGet ev "bot_id") || jTruthyOpt (oGet ev "subtype") then
    ⟨.ok .ok200, st, []⟩
  else slackEventsMessage w cfg st ev

/-- Request-level processing of `slack_events` before the event router
(main.py 500-531): JSON decode — a failure answers 400 before any
signature check; the `url_verification` challenge, also before the
signature check; signature verification (403 on failure); the
`event_callback` type gate; extraction of the event object.  None of this
reads the module state, so it is factored out like the payload gates;
`.ok ev` carries the event object into the router. -/
def routeGate (w : World) (cfg : Config) (body : String)
    (signature timestamp : Option String) :
    Except (Except PyErr HResp) (List (String × J)) :=
  match w.decode body with
  | none => .error (.ok .bad400)
  | some data =>
    match data with
    | .obj dv =>
      if jEqStr (oGet dv "type") "url_verification" then
        match oGet dv "challenge" with
        | some .null => .error (.ok .bad400)
        | some v => .error (.ok (.challengeResp v))
        | none => .error (.ok .bad400)
      else if ¬ (verifySlackRequest w.hmacHex cfg w.now body signature timestamp none = true) then
        .error (.ok .forbidden403)
      else if ¬ (jEqStr (oGet dv "type") "event_callback" = true) then
        .error (.ok .ok200)
      else
        match jOrEmptyObj (oGet dv "event") with
        | .obj ev => .ok ev
        | _ => .error (.error .attributeError)
    | _ => .error (.error .attributeError)

/-- Embedding of the `slack_events` endpoint (main.py 494-673): the
request-level gates, then the event router. -/
def slackEvents (w : World) (cfg : Config) (st : HState) (body : String)
    (signature timestamp : Option String) : HOut :=
  match routeGate w cfg body signature timestamp with
  | .error r => ⟨r, st, []⟩
  | .ok ev => slackEventsEvent w cfg st ev

/-! ## Behavioural lemmas about the endpoint -/

theorem alreadyProcessed_mem {K : Type} [DecidableEq K] (p : List K) (k : K) :
    k ∈ (alreadyProcessed p k).2 := by
  by_cases h : k ∈ p
  · rw [(alreadyProcessed_seen p k h).2]; exact h
  · exact (alreadyProcessed_fresh p k h).2

theorem extractTranslatePost_crash (w : World) (cfg : Config)
    (channel_id reply_ts text1 : String) (h : ¬ (text1 = "")) :
    extractTranslatePost w cfg channel_id reply_ts text1
      = (.error .attributeError, []) := by
  unfold extractTranslatePost extractContentToTranslate
  rw [if_neg h]

theorem slackEventsEditTail_effs_nil (w : World) (cfg : Config) (st : HState)
    (ev em : List (String × J)) (previousJ : J) (channel_id message_ts : String) :
    (slackEventsEditTail w cfg st ev em previousJ channel_id message_ts).effs = [] := by
  unfold slackEventsEditTail
  dsimp only
  repeat' (first
    | rfl
    | exact congrArg Prod.snd (extractTranslatePost_crash w cfg _ _ _ (by assumption))
    | split)

theorem slackEventsEdit_effs_nil (w : World) (cfg : Config) (st : HState)
    (ev : List (String × J)) :
    (slackEventsEdit w cfg st ev).effs = [] := by
  unfold slackEventsEdit
  dsimp only
  repeat' (first | rfl | exact slackEventsEditTail_effs_nil _ _ _ _ _ _ _ _ | split)

theorem slackEventsReactionTail_state (w : World) (cfg : Config) (st2 : HState)
    (channel_id message_ts : String) (thread_ts : Option String) :
    (slackEventsReactionTail w cfg st2 channel_id message_ts thread_ts).state = st2 := by
  unfold slackEventsReactionTail
  dsimp only
  repeat' (first | rfl | split)

theorem slackEventsReactionTail_effs_eq (w : World) (cfg : Config) (st2 : HState)
    (channel_id message_ts : String) (thread_ts : Option String) :
    (slackEventsReactionTail w cfg st2 channel_id message_ts thread_ts).effs
      = (fetchMessage w.api cfg channel_id message_ts thread_ts).2.map Eff.apiCall := by
  unfold slackEventsReactionTail
  dsimp only
  repeat' (first
    | rfl
    | (rw [extractTranslatePost_crash w cfg _ _ _ (by assumption)]; simp)
    | split)

theorem slackEventsReactionTail_spec (w : World) (cfg : Config)
    (p : List (String × String)) (b : Option String) (ch mts : String)
    (th : Option String) :
    ∀ e ∈ (slackEventsReactionTail w cfg ⟨(alreadyProcessed p (ch, mts)).2, b⟩ ch mts th).effs,
      e = Eff.apiCall (ApiReq.historyWindow ch mts)
      ∧ (ch, mts) ∈ (slackEventsReactionTail w cfg
          ⟨(alreadyProcessed p (ch, mts)).2, b⟩ ch mts th).state.processed := by
  intro e he
  rw [slackEventsReactionTail_effs_eq] at he
  rw [slackEventsReactionTail_state]
  refine ⟨?_, alreadyProcessed_mem p (ch, mts)⟩
  rcases fetchMessage_trace_shape w.api cfg ch mts th with hsh | hsh
  · rw [hsh] at he; exact absurd he (List.not_mem_nil e)
  · rw [hsh] at he; simpa using he

theorem getBotUserId_processed (w : World) (cfg : Config) (st : HState) :
    (getBotUserId w cfg st).2.1.processed = st.processed := by
  unfold getBotUserId
  repeat' (first | rfl | split)

theorem getBotUserId_effs (w : World) (cfg : Config) (st : HState) :
    ∀ e ∈ (getBotUserId w cfg st).2.2, e = Eff.authTest := by
  unfold getBotUserId
  cases st.botUserId with
  | some b => intro e he; exact absurd he (List.not_mem_nil e)
  | none =>
    by_cases ht : cfg.SLACK_BOT_TOKEN = ""
    · rw [if_pos ht]; intro e he; exact absurd he (List.not_mem_nil e)
    · rw [if_neg ht]
      cases w.authTestUser with
      | some uid => intro e he; simpa using he
      | none => intro e he; simpa using he

theorem shouldTranslate_processed (w : World) (cfg : Config) (st : HState)
    (text : String) :
    (shouldTranslateAndStrip w cfg st text).2.1.processed = st.processed := by
  unfold shouldTranslateAndStrip
  by_cases h1 : cfg.TRANSLATE_TRIGGER = "all"
  · rw [if_pos h1]
  · rw [if_neg h1]
    by_cases h2 : cfg.TRANSLATE_TRIGGER = "prefix"
    · rw [if_pos h2]
      dsimp only
      split
      · rfl
      · rfl
    · rw [if_neg h2]
      by_cases h3 : cfg.TRANSLATE_TRIGGER = "mention"
      · rw [if_pos h3]
        have hp := getBotUserId_processed w cfg st
        rcases hg : getBotUserId w cfg st with ⟨bid, st2, effs⟩
        rw [hg] at hp
        cases bid with
        | none => exact hp
        | some b =>
          dsimp only
          repeat' (first | exact hp | split)
      · rw [if_neg h3]

theorem shouldTranslate_effs (w : World) (cfg : Config) (st : HState)
    (text : String) :
    ∀ e ∈ (shouldTranslateAndStrip w cfg st text).2.2, e = Eff.authTest := by
  unfold shouldTranslateAndStrip
  by_cases h1 : cfg.TRANSLATE_TRIGGER = "all"
  · rw [if_pos h1]; intro e he; exact absurd he (List.not_mem_nil e)
  · rw [if_neg h1]
    by_cases h2 : cfg.TRANSLATE_TRIGGER = "prefix"
    · rw [if_pos h2]
      dsimp only
      split
      · intro e he; exact absurd he (List.not_mem_nil e)
      · intro e he; exact absurd he (List.not_mem_nil e)
    · rw [if_neg h2]
      by_cases h3 : cfg.TRANSLATE_TRIGGER = "mention"
      · rw [if_pos h3]
        have hp := getBotUserId_effs w cfg st
        rcases hg : getBotUserId w cfg st with ⟨bid, st2, effs⟩
        rw [hg] at hp
        cases bid with
        | none => exact hp
        | some b =>
          dsimp only
          repeat' (first | exact hp | split)
      · rw [if_neg h3]; intro e he; exact absurd he (List.not_mem_nil e)

theorem shouldTranslate_some_ne (w : World) (cfg : Config) (st : HState)
    (text t2 : String) (st3 : HState) (effsA : List Eff)
    (htext : ¬ (text = ""))
    (h : shouldTranslateAndStrip w cfg st text = (some t2, st3, effsA)) :
    ¬ (t2 = "") := by
  unfold shouldTranslateAndStrip at h
  dsimp only at h
  repeat' split at h
  all_goals
    (have h2 := congrArg (fun x => x.1) h
     dsimp only at h2
     first
     | exact Option.noConfusion h2
     | (rw [← Option.some.inj h2]
        first | exact htext | assumption))

theorem messageGate_text_ne (cfg : Config) (ev : List (String × J))
    (ch ts text : String) (h : messageGate cfg ev = .ok (ch, ts, text)) :
    ¬ (text = "") := by
  unfold messageGate at h
  dsimp only at h
  repeat' split at h
  all_goals
    first
    | exact Except.noConfusion h
    | (have h2 := congrArg (fun x => x.2.2) (Except.ok.inj h)
       dsimp only at h2
       rw [← h2]
       assumption)

theorem slackEventsMessageTail_processed (w : World) (cfg : Config) (st2 : HState)
    (channel_id ts text : String) :
    (slackEventsMessageTail w cfg st2 channel_id ts text).state.processed
      = st2.processed := by
  unfold slackEventsMessageTail
  have hp := shouldTranslate_processed w cfg st2 text
  rcases hs : shouldTranslateAndStrip w cfg st2 text with ⟨o, st3, effsA⟩
  rw [hs] at hp
  cases o with
  | none => exact hp
  | some t2 => exact hp

theorem slackEventsMessageTail_effs (w : World) (cfg : Config) (st2 : HState)
    (channel_id ts text : String) (htext : ¬ (text = "")) :
    ∀ e ∈ (slackEventsMessageTail w cfg st2 channel_id ts text).effs,
      e = Eff.authTest := by
  unfold slackEventsMessageTail
  have heffs := shouldTranslate_effs w cfg st2 text
  rcases hs : shouldTranslateAndStrip w cfg st2 text with ⟨o, st3, effsA⟩
  rw [hs] at heffs
  cases o with
  | none => exact heffs
  | some t2 =>
    have ht2 : ¬ (t2 = "") :=
      shouldTranslate_some_ne w cfg st2 text t2 st3 effsA htext hs
    dsimp only
    rw [extractTranslatePost_crash w cfg channel_id ts t2 ht2]
    intro e hee
    dsimp only at hee
    rw [List.append_nil] at hee
    exact heffs e hee

theorem slackEventsReaction_effs_shape (w : World) (cfg : Config) (st : HState)
    (ev : List (String × J)) :
    ∀ e ∈ (slackEventsReaction w cfg st ev).effs,
      ∃ ch mts, e = Eff.apiCall (ApiReq.historyWindow ch mts)
        ∧ (ch, mts) ∈ (slackEventsReaction w cfg st ev).state.processed := by
  unfold slackEventsReaction
  cases hg : reactionGate cfg ev with
  | error r => intro e he; exact absurd he (List.not_mem_nil e)
  | ok pr =>
    obtain ⟨ch, mts⟩ := pr
    dsimp only
    by_cases h1 : (alreadyProcessed st.processed (ch, mts)).1 = true
    · rw [if_pos h1]; intro e he; exact absurd he (List.not_mem_nil e)
    · rw [if_neg h1]
      intro e he
      obtain ⟨h2, h3⟩ := slackEventsReactionTail_spec w cfg st.processed
        st.botUserId ch mts (reactionThreadTs ev) e he
      exact ⟨ch, mts, h2, h3⟩

theorem slackEventsReaction_redelivery (w : World) (cfg : Config) (st : HState)
    (ev : List (String × J)) :
    (slackEventsReaction w cfg (slackEventsReaction w cfg st ev).state ev).effs = [] := by
  unfold slackEventsReaction
  cases hg : reactionGate cfg ev with
  | error r => rfl
  | ok pr =>
    obtain ⟨ch, mts⟩ := pr
    dsimp only
    have hmem : (ch, mts) ∈ (HOut.state (if (alreadyProcessed st.processed (ch, mts)).1 = true
        then ⟨.ok .ok200, ⟨(alreadyProcessed st.processed (ch, mts)).2, st.botUserId⟩, []⟩
        else slackEventsReactionTail w cfg
          ⟨(alreadyProcessed st.processed (ch, mts)).2, st.botUserId⟩
          ch mts (reactionThreadTs ev))).processed := by
      split
      · exact alreadyProcessed_mem st.processed (ch, mts)
      · rw [slackEventsReactionTail_state]
        exact alreadyProcessed_mem st.processed (ch, mts)
    rw [if_pos ((alreadyProcessed_seen _ _ hmem).1)]

theorem slackEventsMessage_effs_shape (w : World) (cfg : Config) (st : HState)
    (ev : List (String × J)) :
    ∀ e ∈ (slackEventsMessage w cfg st ev).effs, e = Eff.authTest := by
  unfold slackEventsMessage
  cases hg : messageGate cfg ev with
  | error r => intro e he; exact absurd he (List.not_mem_nil e)
  | ok tr =>
    obtain ⟨ch, ts, text⟩ := tr
    dsimp only
    by_cases h1 : (alreadyProcessed st.processed (ch, ts)).1 = true
    · rw [if_pos h1]; intro e he; exact absurd he (List.not_mem_nil e)
    · rw [if_neg h1]
      exact slackEventsMessageTail_effs w cfg _ ch ts text
        (messageGate_text_ne cfg ev ch ts text hg)

theorem slackEventsMessage_redelivery (w : World) (cfg : Config) (st : HState)
    (ev : List (String × J)) :
    (slackEventsMessage w cfg (slackEventsMessage w cfg st ev).state ev).effs = [] := by
  unfold slackEventsMessage
  cases hg : messageGate cfg ev with
  | error r => rfl
  | ok tr =>
    obtain ⟨ch, ts, text⟩ := tr
    dsimp only
    have hmem : (ch, ts) ∈ (HOut.state (if (alreadyProcessed st.processed (ch, ts)).1 = true
        then ⟨.ok .ok200, ⟨(alreadyProcessed st.processed (ch, ts)).2, st.botUserId⟩, []⟩
        else slackEventsMessageTail w cfg
          ⟨(alreadyProcessed st.processed (ch, ts)).2, st.botUserId⟩ ch ts text)).processed := by
      split
      · exact alreadyProcessed_mem st.processed (ch, ts)
      · rw [slackEventsMessageTail_processed]
        exact alreadyProcessed_mem st.processed (ch, ts)
    rw [if_pos ((alreadyProcessed_seen _ _ hmem).1)]

theorem slackEventsEvent_effs_shape (w : World) (cfg : Config) (st : HState)
    (ev : List (String × J)) :
    ∀ e ∈ (slackEventsEvent w cfg st ev).effs,
      e = Eff.authTest ∨ ∃ ch mts, e = Eff.apiCall (ApiReq.historyWindow ch mts)
        ∧ (ch, mts) ∈ (slackEventsEvent w cfg st ev).state.processed := by
  unfold slackEventsEvent
  split
  · intro e he
    obtain ⟨ch, mts, h1, h2⟩ := slackEventsReaction_effs_shape w cfg st ev e he
    exact Or.inr ⟨ch, mts, h1, h2⟩
  · split
    · intro e he
      rw [slackEventsEdit_effs_nil] at he
      exact absurd he (List.not_mem_nil e)
    · split
      · intro e he; exact absurd he (List.not_mem_nil e)
      · split
        · intro e he; exact absurd he (List.not_mem_nil e)
        · split
          · intro e he; exact absurd he (List.not_mem_nil e)
          · intro e he
            exact Or.inl (slackEventsMessage_effs_shape w cfg st ev e he)

theorem slackEventsEvent_redelivery (w : World) (cfg : Config) (st : HState)
    (ev : List (String × J)) :
    (slackEventsEvent w cfg (slackEventsEvent w cfg st ev).state ev).effs = [] := by
  unfold slackEventsEvent
  split
  · exact slackEventsReaction_redelivery w cfg st ev
  · split
    · exact slackEventsEdit_effs_nil w cfg _ ev
    · split
      · rfl
      · split
        · rfl
        · split
          · rfl
          · exact slackEventsMessage_redelivery w cfg st ev

theorem slackEvents_effs_shape (w : World) (cfg : Config) (st : HState)
    (body : String) (signature timestamp : Option String) :
    ∀ e ∈ (slackEvents w cfg st body signature timestamp).effs,
      e = Eff.authTest ∨ ∃ ch mts, e = Eff.apiCall (ApiReq.historyWindow ch mts)
        ∧ (ch, mts) ∈ (slackEvents w cfg st body signature timestamp).state.processed := by
  unfold slackEvents
  cases hg : routeGate w cfg body signature timestamp with
  | error r => intro e he; exact absurd he (List.not_mem_nil e)
  | ok ev => exact slackEventsEvent_effs_shape w cfg st ev

theorem slackEvents_redelivery (w : World) (cfg : Config) (st : HState)
    (body : String) (signature timestamp : Option String) :
    (slackEvents w cfg (slackEvents w cfg st body signature timestamp).state
      body signature timestamp).effs = [] := by
  unfold slackEvents
  cases hg : routeGate w cfg body signature timestamp with
  | error r => rfl
  | ok ev => exact slackEventsEvent_redelivery w cfg st ev

/-- True for effects that are neither a DeepL translation request nor a
`chat.postMessage` reply. -/
def cleanEff (e : Eff) : Bool :=
  match e with
  | .translateCall _ => false
  | .postCall _ _ _ => false
  | _ => true

/-- No DeepL translation request and no `chat.postMessage` reply occurs
in the trace. -/
def noTranslateOrPost (effs : List Eff) : Bool := effs.all cleanEff

theorem slackEvents_no_translate_post (w : World) (cfg : Config) (st : HState)
    (body : String) (signature timestamp : Option String) :
    noTranslateOrPost (slackEvents w cfg st body signature timestamp).effs = true := by
  unfold noTranslateOrPost
  rw [List.all_eq_true]
  intro e he
  rcases slackEvents_effs_shape w cfg st body signature timestamp e he with
    h | ⟨ch, mts, h, hm⟩
  · subst h; rfl
  · subst h; rfl

/-- The `event.text` field of the decoded request body, when the body
decodes to an object whose `event` is an object with a string `text`. -/
def eventText (w : World) (body : String) : Option String :=
  match w.decode body with
  | some (J.obj dv) =>
    match jOrEmptyObj (oGet dv "event") with
    | .obj ev =>
      match oGet ev "text" with
      | some (J.str s) => some s
      | _ => none
    | _ => none
  | _ => none

/-- C2.  Whenever the inbound request carries a message whose lowercase
text contains a configured exclude phrase, the handler performs no
translation and posts no reply.  The embedded handler satisfies the
claimed implication outright — in fact no request ever produces a
translation or a reply: `main.py` contains no exclude-phrase check (it
never reads `config.EXCLUDE_PHRASES_LIST`), but every path that would
translate first calls `_extract_content_to_translate` with nonempty
text, which raises `AttributeError` on the undefined
`config.EXTRACT_PHRASES_LIST` before any DeepL or `chat.postMessage`
call. -/
theorem exclude_phrase_no_translation (w : World) (cfg : Config) (st : HState)
    (body : String) (signature timestamp : Option String) (phrase T : String)
    (hph : phrase ∈ cfg.EXCLUDE_PHRASES_LIST)
    (hT : eventText w body = some T)
    (hcontains : strContains (pyLower T) phrase = true) :
    noTranslateOrPost (slackEvents w cfg st body signature timestamp).effs = true :=
  slackEvents_no_translate_post w cfg st body signature timestamp

/-- A decoded `event_callback` body carrying a plain message whose text
contains the default exclude phrase "translation of the following". -/
def payloadC2 : J :=
  J.obj [("type", J.str "event_callback"),
         ("event", J.obj [("type", J.str "message"), ("channel", J.str "C2"),
                          ("ts", J.str "2.0"),
                          ("text", J.str "A translation of the following text")])]

/-- A world decoding the body "B2" to `payloadC2`. -/
def wC2 : World :=
  ⟨fun b => if b == "B2" then some payloadC2 else none,
   fun _ _ => "h", ⟨0, 0⟩,
   fun _ => ⟨200, true, [], "", false⟩,
   fun _ => none, true, none⟩

theorem exclude_phrase_no_translation_witness :
    "translation of the following" ∈ cfgTest.EXCLUDE_PHRASES_LIST
    ∧ eventText wC2 "B2" = some "A translation of the following text"
    ∧ strContains (pyLower "A translation of the following text")
        "translation of the following" = true
    ∧ noTranslateOrPost
        (slackEvents wC2 cfgTest ⟨[], none⟩ "B2" (some "v0=h") (some "0")).effs = true :=
  ⟨by decide, rfl, by decide,
   exclude_phrase_no_translation wC2 cfgTest ⟨[], none⟩ "B2" (some "v0=h") (some "0")
     "translation of the following" "A translation of the following text"
     (by decide) rfl (by decide)⟩

/-- A decoded `event_callback` body carrying a plain message "Hello". -/
def payloadC3 : J :=
  J.obj [("type", J.str "event_callback"),
         ("event", J.obj [("type", J.str "message"), ("channel", J.str "C1"),
                          ("ts", J.str "1.0"), ("text", J.str "Hello")])]

/-- A world decoding the body "B3" to `payloadC3`. -/
def wC3 : World :=
  ⟨fun b => if b == "B3" then some payloadC3 else none,
   fun _ _ => "h", ⟨0, 0⟩,
   fun _ => ⟨200, true, [], "", false⟩,
   fun _ => none, true, none⟩

/-- C3.  `_extract_content_to_translate` raises `AttributeError` for
every nonempty text, because `config.EXTRACT_PHRASES_LIST` is undefined;
and the error branch is reachable at the public interface: a verified
plain message "Hello" in trigger mode "all" makes the handler terminate
with the uncaught `AttributeError` (no 200 "OK" is produced), having
marked the dedup key first and issued no external call. -/
theorem extract_phrases_attribute_error :
    (∀ t : String, ¬ (t = "") →
      extractContentToTranslate t = .error .attributeError)
    ∧ slackEvents wC3 cfgTest ⟨[], none⟩ "B3" (some "v0=h") (some "0")
        = ⟨.error .attributeError, ⟨[("C1", "1.0")], none⟩, []⟩ := by
  constructor
  · intro t ht
    unfold extractContentToTranslate
    rw [if_neg ht]
  · rfl

theorem extract_phrases_attribute_error_witness :
    extractContentToTranslate "Hello" = .error .attributeError :=
  extract_phrases_attribute_error.1 "Hello" (by decide)

/-- The `config.py` defaults with `TRANSLATE_TRIGGER = "reaction"`. -/
def cfgReaction : Config :=
  ⟨"s", "xoxb", "k", [], 300, "reaction", "[translate]", "de",
    ["translation of the following", "assist us with a translation"]⟩

/-- The `message_changed` payload of the repository's own test
`test_message_changed_fetches_reactions_when_not_in_payload`
(tests/test_reaction_edit_flow.py): the edited message carries no
`reactions` list, and neither does `previous_message`. -/
def payloadC6 : J :=
  J.obj [("type", J.str "event_callback"),
         ("event", J.obj [
            ("type", J.str "message"),
            ("subtype", J.str "message_changed"),
            ("channel", J.str "C123"),
            ("message", J.obj [("ts", J.str "111.001"),
                               ("thread_ts", J.str "111.000"),
                               ("text", J.str "Hello world"),
                               ("edited", J.obj [("ts", J.str "1700000000.1111")])]),
            ("previous_message", J.obj [("ts", J.str "111.001")]),
            ("event_ts", J.str "1700000000.2222")])]

/-- A world decoding the body "B6" to `payloadC6`, with the Slack Web API
left as a parameter. -/
def wC6 (api : ApiReq → ApiResp) : World :=
  ⟨fun b => if b == "B6" then some payloadC6 else none,
   fun _ _ => "h", ⟨0, 0⟩, api, fun _ => none, true, none⟩

/-- C6 (code bug).  The claim — and the repository's test
`test_message_changed_fetches_reactions_when_not_in_payload` — expect a
`message_changed` event without a `reactions` list on the edited message
to trigger a live `reactions.get` lookup, translating exactly when the
fetched list carries the trigger emoji.  The code instead falls back to
the `previous_message` payload (main.py 593-597): on the test's own
payload the handler answers 200 with NO external call at all and
unchanged state, whatever the Web API would have answered — in
particular no `reactions.get` request is ever issued and no translation
happens even when the live reaction list carries the trigger emoji. -/
theorem edit_reactions_fallback_bug :
    ∀ api : ApiReq → ApiResp,
      slackEvents (wC6 api) cfgReaction ⟨[], none⟩ "B6" (some "v0=h") (some "0")
        = ⟨.ok .ok200, ⟨[], none⟩, []⟩ := by
  intro api
  rfl

/-- A world whose decoder fails on every body (malformed JSON). -/
def wC8bad : World :=
  ⟨fun _ => none, fun _ _ => "h", ⟨0, 0⟩,
   fun _ => ⟨200, true, [], "", false⟩, fun _ => none, true, none⟩

/-- A world decoding the body "B8" to a minimal `event_callback`. -/
def wC8ok : World :=
  ⟨fun b => if b == "B8" then some (J.obj [("type", J.str "event_callback")]) else none,
   fun _ _ => "h", ⟨0, 0⟩,
   fun _ => ⟨200, true, [], "", false⟩, fun _ => none, true, none⟩

/-- C8 (amended).  The body is parsed as JSON FIRST: an unparseable body
is answered 400 before any signature check (even when verification would
also fail), and a parsed non-`url_verification` request failing signature
verification is answered 403.  The claim's ordering — parse only after
successful verification — is contradicted by
`json_parse_counterexample`. -/
theorem json_parse_before_verification (w : World) (cfg : Config) (st : HState)
    (body : String) (signature timestamp : Option String) :
    (w.decode body = none →
      (slackEvents w cfg st body signature timestamp).resp = .ok .bad400)
    ∧ (∀ dv, w.decode body = some (J.obj dv) →
      jEqStr (oGet dv "type") "url_verification" = false →
      verifySlackRequest w.hmacHex cfg w.now body signature timestamp none = false →
      (slackEvents w cfg st body signature timestamp).resp = .ok .forbidden403) := by
  constructor
  · intro h
    unfold slackEvents routeGate
    rw [h]
  · intro dv hdec hty hver
    unfold slackEvents routeGate
    rw [hdec]
    simp only [hty, hver, Bool.false_eq_true, if_false, not_false_eq_true, if_true]

theorem json_parse_before_verification_witness :
    (slackEvents wC8bad cfgTest ⟨[], none⟩ "notjson" (some "bad") (some "0")).resp
        = .ok .bad400
    ∧ (slackEvents wC8ok cfgTest ⟨[], none⟩ "B8" (some "bad") (some "0")).resp
        = .ok .forbidden403 :=
  ⟨(json_parse_before_verification wC8bad cfgTest ⟨[], none⟩ "notjson"
      (some "bad") (some "0")).1 rfl,
   (json_parse_before_verification wC8ok cfgTest ⟨[], none⟩ "B8"
      (some "bad") (some "0")).2 [("type", J.str "event_callback")] rfl
      (by decide) (by decide)⟩

/-- C8 counterexample.  A request whose body is unparseable AND whose
signature fails verification is answered 400, not the 403 the claim
requires for every verification failure outside `url_verification`:
JSON parsing happens before the signature check (main.py 505-523). -/
theorem json_parse_counterexample :
    verifySlackRequest wC8bad.hmacHex cfgTest wC8bad.now "notjson"
        (some "bad") (some "0") none = false
    ∧ (slackEvents wC8bad cfgTest ⟨[], none⟩ "notjson" (some "bad") (some "0")).resp
        = .ok .bad400
    ∧ (slackEvents wC8bad cfgTest ⟨[], none⟩ "notjson" (some "bad") (some "0")).resp
        ≠ .ok .forbidden403 := by
  refine ⟨by decide, rfl, ?_⟩
  intro h
  injection h with h2
  exact HResp.noConfusion h2

/-- A `reaction_added` payload for the trigger emoji "de" on message
("C9", "9.0"). -/
def payloadC10 : J :=
  J.obj [("type", J.str "event_callback"),
         ("event", J.obj [("type", J.str "reaction_added"),
            ("reaction", J.str "de"),
            ("item", J.obj [("type", J.str "message"),
                            ("channel", J.str "C9"), ("ts", J.str "9.0")])])]

/-- A world decoding the body "B10" to `payloadC10`; the history window
query succeeds with no messages. -/
def wC10 : World :=
  ⟨fun b => if b == "B10" then some payloadC10 else none,
   fun _ _ => "h", ⟨0, 0⟩,
   fun _ => ⟨200, true, [], "", false⟩,
   fun _ => none, true, none⟩

/-- C10.  The dedup ledger marks the event's key before any resolution
work: every Web-API resolution call in a request's trace is for a
(channel, ts) key already recorded in the final ledger; and a redelivery
of the same request against the resulting state performs no external
action at all — failed resolution, translation or posting is never
retried. -/
theorem dedup_marks_before_work (w : World) (cfg : Config) (st : HState)
    (body : String) (signature timestamp : Option String) :
    (∀ ch mts, Eff.apiCall (ApiReq.historyWindow ch mts)
        ∈ (slackEvents w cfg st body signature timestamp).effs →
      (ch, mts) ∈ (slackEvents w cfg st body signature timestamp).state.processed)
    ∧ (slackEvents w cfg (slackEvents w cfg st body signature timestamp).state
        body signature timestamp).effs = [] := by
  constructor
  · intro ch mts hmem
    rcases slackEvents_effs_shape w cfg st body signature timestamp _ hmem with
      h | ⟨ch2, mts2, h, hm⟩
    · exact Eff.noConfusion h
    · injection h with h2
      injection h2 with h3 h4
      subst h3
      subst h4
      exact hm
  · exact slackEvents_redelivery w cfg st body signature timestamp

theorem dedup_marks_before_work_witness :
    Eff.apiCall (ApiReq.historyWindow "C9" "9.0")
        ∈ (slackEvents wC10 cfgReaction ⟨[], none⟩ "B10" (some "v0=h") (some "0")).effs
    ∧ ("C9", "9.0")
        ∈ (slackEvents wC10 cfgReaction ⟨[], none⟩ "B10" (some "v0=h") (some "0")).state.processed
    ∧ (slackEvents wC10 cfgReaction
        (slackEvents wC10 cfgReaction ⟨[], none⟩ "B10" (some "v0=h") (some "0")).state
        "B10" (some "v0=h") (some "0")).effs = [] :=
  ⟨by decide,
   (dedup_marks_before_work wC10 cfgReaction ⟨[], none⟩ "B10"
      (some "v0=h") (some "0")).1 "C9" "9.0" (by decide),
   (dedup_marks_before_work wC10 cfgReaction ⟨[], none⟩ "B10"
      (some "v0=h") (some "0")).2⟩

end SlackTranslate
